import Mathlib

/-!
Verification of the `Kelll31/Matrix-MITRE` ingestion / normalization /
indexing / cache pipeline (`src/main.py`, with `src/parsing_and_draw_matrix.py`
as secondary variant).

Modelling conventions (shallow embedding):

* Python strings are modelled as `PyStr := List Nat`, a sequence of Unicode
  code points.  `str.lower` / `str.upper` are modelled as the ASCII case maps
  (all identifiers, tactic slugs and phase names handled by this code are
  ASCII; Python's behaviour coincides with the ASCII map on them).
  `s.startswith t`, lexicographic comparison of strings (used by
  `list.sort(key=...)`) and `str.replace(" ", "-")` are modelled directly on
  code-point sequences, exactly matching CPython semantics on those values.
* Python (insertion-ordered) dicts are modelled as association lists
  together with the update operation `updAssoc` that replaces the value of an
  existing key in place and appends fresh keys at the end — exactly the
  observable behaviour of `d[k] = v` plus iteration order of `dict`.
* Loosely-shaped upstream STIX records are modelled by `RawObj` carrying the
  exact fields `parse_matrix` reads; fields whose absence matters
  (`obj.get(...)` with / without defaults, `x or default`) are `Option`s and
  the corresponding defaulting logic is reproduced at the use sites.
* `json.dump` / `json.load` are modelled by a `Json` tree plus structural
  encoders and decoders; this models the cache file contents after parsing.
-/

/-- Python strings as code-point sequences. -/
abbrev PyStr : Type := List Nat

/-- Convenience: turn a Lean string literal into a `PyStr`. -/
def pyStr (s : String) : PyStr := s.data.map Char.toNat

/-- ASCII lower-casing of one code point (model of `str.lower` per char). -/
def lowerN (n : Nat) : Nat := if 65 ≤ n ∧ n ≤ 90 then n + 32 else n

/-- ASCII upper-casing of one code point (model of `str.upper` per char). -/
def upperN (n : Nat) : Nat := if 97 ≤ n ∧ n ≤ 122 then n - 32 else n

/-- Model of `s.lower()`. -/
def pyLower (s : PyStr) : PyStr := s.map lowerN

/-- Model of `s.upper()`. -/
def pyUpper (s : PyStr) : PyStr := s.map upperN

/-- Model of `s.replace(" ", "-")` (single-char replacement). -/
def pyHyphenate (s : PyStr) : PyStr := s.map (fun n => if n = 32 then 45 else n)

/-- Model of `s.startswith(t)` : `t` is a prefix of `s`. -/
def pyStartsWithB (t s : PyStr) : Bool :=
  match t, s with
  | [], _ => true
  | _ :: _, [] => false
  | a :: as, b :: bs => if a = b then pyStartsWithB as bs else false

/-- Lexicographic `≤` on code-point sequences: the comparison CPython uses
for `str` (and hence for `list.sort(key=lambda x: x["id"])`). -/
def strLe : PyStr → PyStr → Bool
  | [], _ => true
  | _ :: _, [] => false
  | a :: as, b :: bs => if a < b then true else if b < a then false else strLe as bs

/-- Lexicographic `<` on code-point sequences. -/
def strLt : PyStr → PyStr → Bool
  | [], [] => false
  | [], _ :: _ => true
  | _ :: _, [] => false
  | a :: as, b :: bs => if a < b then true else if b < a then false else strLt as bs

theorem strLe_total : ∀ s t : PyStr, strLe s t = true ∨ strLe t s = true
  | [], _ => Or.inl rfl
  | _ :: _, [] => Or.inr rfl
  | a :: as, b :: bs => by
    by_cases hab : a < b
    · left; simp [strLe, hab]
    · by_cases hba : b < a
      · right; simp [strLe, hba, hab]
      · have hev : a = b := by omega
        subst hev
        rcases strLe_total as bs with h | h
        · left; simp [strLe, h]
        · right; simp [strLe, h]

theorem strLe_trans : ∀ {s t u : PyStr},
    strLe s t = true → strLe t u = true → strLe s u = true
  | [], _, _, _, _ => rfl
  | _ :: _, [], _, h, _ => by simp [strLe] at h
  | _ :: _, _ :: _, [], _, h => by simp [strLe] at h
  | a :: as, b :: bs, c :: cs, h₁, h₂ => by
    simp only [strLe] at h₁ h₂ ⊢
    by_cases hab : a < b
    · by_cases hbc : b < c
      · have : a < c := by omega
        simp [this]
      · by_cases hcb : c < b
        · simp [strLe, hbc, hcb] at h₂
        · have hev : b = c := by omega
          subst hev
          simp [hab]
    · by_cases hba : b < a
      · simp [hab, hba] at h₁
      · have hev : a = b := by omega
        subst hev
        by_cases hbc : a < c
        · simp [hbc]
        · by_cases hcb : c < a
          · simp [strLe, hbc, hcb] at h₂
          · have hev2 : a = c := by omega
            subst hev2
            simp only [hab, hba, if_neg, ite_self] at h₁ h₂ ⊢
            simp at h₁ h₂
            exact strLe_trans h₁ h₂

theorem strLt_of_le_of_ne : ∀ {s t : PyStr}, strLe s t = true → s ≠ t → strLt s t = true
  | [], [], _, hne => absurd rfl hne
  | [], _ :: _, _, _ => rfl
  | _ :: _, [], h, _ => by simp [strLe] at h
  | a :: as, b :: bs, h, hne => by
    simp only [strLe, strLt] at h ⊢
    by_cases hab : a < b
    · simp [hab]
    · by_cases hba : b < a
      · simp [hab, hba] at h
      · have hev : a = b := by omega
        subst hev
        have hne' : as ≠ bs := by intro hc; exact hne (by rw [hc])
        simp [hab, hba] at h ⊢
        exact strLt_of_le_of_ne h hne'

/-! ## Insertion-ordered dictionaries as association lists -/

section Assoc

variable {κ : Type} {V : Type} [DecidableEq κ]

/-- Model of `d[k] = v` on a Python dict: replace in place if the key exists
(keeping its position), otherwise append at the end. -/
def updAssoc (k : κ) (v : V) : List (κ × V) → List (κ × V)
  | [] => [(k, v)]
  | p :: rest => if p.1 = k then (k, v) :: rest else p :: updAssoc k v rest

/-- Model of `d.get(k)` / `k in d` lookup: first (hence unique) match. -/
def lookupA (k : κ) : List (κ × V) → Option V
  | [] => none
  | p :: rest => if p.1 = k then some p.2 else lookupA k rest

/-- Model of `k in d`. -/
def hasKeyB (k : κ) (l : List (κ × V)) : Bool := (lookupA k l).isSome

/-- Model of `d[k].append(x)` guarded by `if k in d` (appends to the value of
the first matching key, no-op when the key is absent). -/
def appendAt (k : κ) (x : V) : List (κ × List V) → List (κ × List V)
  | [] => []
  | p :: rest => if p.1 = k then (p.1, p.2 ++ [x]) :: rest else p :: appendAt k x rest

/-- Fold a list of `(key, value)` pairs into a dict by repeated assignment. -/
def insertAll (ps : List (κ × V)) (acc : List (κ × V)) : List (κ × V) :=
  ps.foldl (fun a p => updAssoc p.1 p.2 a) acc

/-- The value of the last pair of `ps` with key `k`, if any. -/
def lastVal (k : κ) : List (κ × V) → Option V
  | [] => none
  | p :: ps =>
    match lastVal k ps with
    | some v => some v
    | none => if p.1 = k then some p.2 else none

theorem lookupA_updAssoc (k k' : κ) (v : V) (l : List (κ × V)) :
    lookupA k (updAssoc k' v l) = if k' = k then some v else lookupA k l := by
  induction l with
  | nil => simp [updAssoc, lookupA]
  | cons p rest ih =>
    by_cases h : p.1 = k'
    · by_cases h2 : k' = k <;> simp [updAssoc, lookupA, h, h2, h.trans]
    · by_cases h2 : p.1 = k
      · have hk : ¬ k' = k := fun hc => h (hc ▸ h2)
        have hk2 : ¬ k = k' := fun hc => hk hc.symm
        simp [updAssoc, lookupA, h, h2, hk, hk2]
      · simp [updAssoc, lookupA, h, h2, ih]

theorem lookupA_insertAll (k : κ) (ps : List (κ × V)) (acc : List (κ × V)) :
    lookupA k (insertAll ps acc) =
      match lastVal k ps with
      | some v => some v
      | none => lookupA k acc := by
  induction ps generalizing acc with
  | nil => simp [insertAll, lastVal]
  | cons p ps ih =>
    show lookupA k (insertAll ps (updAssoc p.1 p.2 acc)) = _
    rw [ih, lookupA_updAssoc]
    rcases hl : lastVal k ps with _ | v
    · by_cases h : p.1 = k <;> simp [lastVal, hl, h]
    · simp [lastVal, hl]

theorem lastVal_mem {k : κ} {v : V} : ∀ {ps : List (κ × V)},
    lastVal k ps = some v → (k, v) ∈ ps := by
  intro ps
  induction ps with
  | nil => intro h; simp [lastVal] at h
  | cons p ps ih =>
    intro h
    simp only [lastVal] at h
    rcases hl : lastVal k ps with _ | w
    · rw [hl] at h
      obtain ⟨p1, p2⟩ := p
      by_cases hk : p1 = k
      · subst hk
        rw [if_pos rfl] at h
        simp only [Option.some.injEq] at h
        subst h
        exact List.mem_cons_self _ _
      · simp [hk] at h
    · rw [hl] at h
      cases h
      exact List.mem_cons_of_mem _ (ih hl)

theorem lastVal_isSome_of_mem {k : κ} {v : V} : ∀ {ps : List (κ × V)},
    (k, v) ∈ ps → ∃ w, lastVal k ps = some w := by
  intro ps
  induction ps with
  | nil => intro h; simp at h
  | cons p ps ih =>
    intro h
    rcases List.mem_cons.mp h with h | h
    · rcases hl : lastVal k ps with _ | w
      · exact ⟨p.2, by simp [lastVal, hl, ← h]⟩
      · exact ⟨w, by simp [lastVal, hl]⟩
    · rcases ih h with ⟨w, hw⟩
      exact ⟨w, by simp [lastVal, hw]⟩

theorem lastVal_of_nodup {k : κ} {v : V} : ∀ {ps : List (κ × V)},
    (ps.map Prod.fst).Nodup → (k, v) ∈ ps → lastVal k ps = some v := by
  intro ps
  induction ps with
  | nil => intro _ h; simp at h
  | cons p ps ih =>
    intro hnd h
    simp only [List.map_cons, List.nodup_cons] at hnd
    rcases List.mem_cons.mp h with h | h
    · subst h
      rcases hl : lastVal k ps with _ | w
      · simp [lastVal, hl]
      · exact absurd (List.mem_map_of_mem Prod.fst (lastVal_mem hl)) hnd.1
    · simp [lastVal, ih hnd.2 h]

theorem mem_updAssoc {p : κ × V} {k : κ} {v : V} : ∀ {l : List (κ × V)},
    p ∈ updAssoc k v l → p = (k, v) ∨ p ∈ l := by
  intro l
  induction l with
  | nil => intro h; simp [updAssoc] at h; exact Or.inl h
  | cons q rest ih =>
    intro h
    by_cases hq : q.1 = k
    · simp only [updAssoc, hq, if_pos] at h
      rcases List.mem_cons.mp h with h | h
      · exact Or.inl h
      · exact Or.inr (List.mem_cons_of_mem _ h)
    · simp only [updAssoc, hq, if_neg, not_false_iff] at h
      rcases List.mem_cons.mp h with h | h
      · exact Or.inr (h ▸ List.mem_cons_self _ _)
      · rcases ih h with h | h
        · exact Or.inl h
        · exact Or.inr (List.mem_cons_of_mem _ h)

theorem lookupA_mem {k : κ} {v : V} : ∀ {l : List (κ × V)},
    lookupA k l = some v → (k, v) ∈ l := by
  intro l
  induction l with
  | nil => intro h; simp [lookupA] at h
  | cons p rest ih =>
    intro h
    obtain ⟨p1, p2⟩ := p
    by_cases hp : p1 = k
    · subst hp
      simp [lookupA] at h
      subst h
      exact List.mem_cons_self _ _
    · simp only [lookupA, hp, if_neg, not_false_iff] at h
      exact List.mem_cons_of_mem _ (ih h)

theorem lookupA_eq_none {k : κ} : ∀ {l : List (κ × V)},
    (∀ p ∈ l, p.1 ≠ k) → lookupA k l = none := by
  intro l
  induction l with
  | nil => intro _; rfl
  | cons p rest ih =>
    intro h
    have hp : p.1 ≠ k := h p (List.mem_cons_self _ _)
    simp only [lookupA, hp, if_neg, not_false_iff]
    exact ih fun q hq => h q (List.mem_cons_of_mem _ hq)

theorem lookupA_appendAt (k k' : κ) (x : V) (l : List (κ × List V)) :
    lookupA k (appendAt k' x l) =
      if k' = k then (lookupA k l).map (fun v => v ++ [x]) else lookupA k l := by
  induction l with
  | nil => by_cases h : k' = k <;> simp [appendAt, lookupA, h]
  | cons p rest ih =>
    by_cases hp : p.1 = k'
    · by_cases hk : k' = k
      · subst hk; simp [appendAt, lookupA, hp]
      · have : ¬ p.1 = k := fun hc => hk ((hp.symm.trans hc))
        simp [appendAt, lookupA, hp, hk, this]
    · by_cases hpk : p.1 = k
      · have hk : ¬ k' = k := fun hc => hp (by rw [hpk, hc])
        have hk2 : ¬ k = k' := fun hc => hk hc.symm
        simp [appendAt, lookupA, hp, hpk, hk, hk2]
      · simp [appendAt, lookupA, hp, hpk, ih]

theorem hasKeyB_appendAt (k k' : κ) (x : V) (l : List (κ × List V)) :
    hasKeyB k (appendAt k' x l) = hasKeyB k l := by
  unfold hasKeyB
  rw [lookupA_appendAt]
  by_cases h : k' = k
  · simp only [h, if_pos]
    rcases lookupA k l with _ | v <;> simp
  · simp [h]

theorem mem_appendAt {k : κ} {x : V} {q : κ × List V} : ∀ {l : List (κ × List V)},
    q ∈ appendAt k x l → (∃ p ∈ l, q.1 = p.1 ∧ ∀ y ∈ q.2, y ∈ p.2 ∨ y = x) ∨ q ∈ l := by
  intro l
  induction l with
  | nil => intro h; simp [appendAt] at h
  | cons p rest ih =>
    intro h
    by_cases hp : p.1 = k
    · simp only [appendAt, hp, if_pos] at h
      rcases List.mem_cons.mp h with h | h
      · subst h
        refine Or.inl ⟨p, List.mem_cons_self _ _, hp.symm, fun y hy => ?_⟩
        rcases List.mem_append.mp hy with hy' | hy'
        · exact Or.inl hy'
        · exact Or.inr (List.mem_singleton.mp hy')
      · exact Or.inr (List.mem_cons_of_mem _ h)
    · simp only [appendAt, hp, if_neg, not_false_iff] at h
      rcases List.mem_cons.mp h with h | h
      · exact Or.inr (h ▸ List.mem_cons_self _ _)
      · rcases ih h with ⟨p', hp', hq⟩ | h
        · exact Or.inl ⟨p', List.mem_cons_of_mem _ hp', hq⟩
        · exact Or.inr (List.mem_cons_of_mem _ h)

end Assoc

/-! ## Record shapes produced by `parse_matrix` (src/main.py)

Three distinct dict shapes occur in the code:

* `SubRec` — the nine content fields shared by every shape; it is exactly the
  sub-technique dict rebuilt in pass 2 (lines 232-244 of `src/main.py`).
* `TechData` — the pass-1 working dict `tech_data` (lines 197-208): the nine
  content fields plus the debugging field `stix_id`; this is also the record
  the index stores.
* `TechObj` — the technique dict placed in the matrix in pass 2
  (lines 246-259): the nine content fields plus the `subtechniques` list.
-/

/-- A formatted external reference (lines 189-195 of `src/main.py`). -/
structure RefOut where
  source_name : PyStr
  description : Option PyStr
  url : Option PyStr
  external_id : Option PyStr
deriving DecidableEq

/-- The nine content fields common to every record shape; also exactly the
sub-technique record stored in the matrix. -/
structure SubRec where
  id : PyStr
  name : PyStr
  description : PyStr
  platforms : List PyStr
  tactics : List PyStr
  mitre_url : Option PyStr
  detection : PyStr
  external_references : List RefOut
  kill_chain_phases : List PyStr
deriving DecidableEq

/-- The pass-1 working record `tech_data` (content fields plus `stix_id`);
this is the shape stored in `technique_index`. -/
structure TechData where
  core : SubRec
  stix_id : PyStr
deriving DecidableEq

/-- The technique record stored in the matrix (content fields plus the
assembled `subtechniques` list). -/
structure TechObj where
  core : SubRec
  subtechniques : List SubRec
deriving DecidableEq

/-- A tactic record (lines 155-159 of `src/main.py`). -/
structure TacticData where
  name : PyStr
  description : PyStr
  shortname : PyStr
deriving DecidableEq

/-- Matrix statistics (lines 278-282 of `src/main.py`). -/
structure Stats where
  total_tactics : Nat
  total_techniques : Nat
  total_subtechniques : Nat
deriving DecidableEq

/-- The dict returned by `parse_matrix` (lines 274-283 of `src/main.py`). -/
structure Dataset where
  tactics : List (PyStr × TacticData)
  matrix : List (PyStr × List TechObj)
  technique_index : List (PyStr × TechData)
  statistics : Stats
deriving DecidableEq

/-! ## Raw upstream records -/

/-- A kill-chain phase entry of a raw attack-pattern object. -/
structure KcPhase where
  phase_name : Option PyStr
deriving DecidableEq

/-- A raw external reference of an upstream object; every field the code
reads with `.get` is optional. -/
structure RawRef where
  source_name : Option PyStr
  description : Option PyStr
  url : Option PyStr
  external_id : Option PyStr
deriving DecidableEq

/-- A raw upstream STIX object, restricted to the fields `parse_matrix`
reads.  `typ` models `obj.get("type", "")`; the remaining fields model the
corresponding `obj.get(...)` accesses, `Option` where absence matters. -/
structure RawObj where
  typ : PyStr
  id : Option PyStr
  name : Option PyStr
  description : Option PyStr
  shortname : Option PyStr
  is_subtechnique : Bool
  kill_chain_phases : List KcPhase
  external_references : List RawRef
  platforms : List PyStr
  detection : Option PyStr
deriving DecidableEq

/-! ## Pass 1 -/

/-- `"mitre-attack" / "attack" / "mitre"` — the alias set of line 174,
compared against `ref.get("source_name", "").lower()`. -/
def isMitreAlias (src : Option PyStr) : Bool :=
  let s := pyLower (src.getD [])
  decide (s = pyStr "mitre-attack") || decide (s = pyStr "attack") || decide (s = pyStr "mitre")

/-- The sentinel initial value of `external_id` (line 170). -/
def naStr : PyStr := pyStr "N/A"

/-- The alias-scanning loop of lines 172-177: returns the pair
`(external_id, mitre_url)` as left by the loop (first alias match wins,
`break` afterwards). -/
def resolveLoop : List RawRef → PyStr × Option PyStr
  | [] => (naStr, none)
  | r :: rs =>
    if isMitreAlias r.source_name then (r.external_id.getD naStr, r.url)
    else resolveLoop rs

/-- Lines 170-182 of `src/main.py`: the alias loop followed by the fallback
to the first external reference when `external_id` is still `"N/A"`. -/
def resolveExternal (refs : List RawRef) : PyStr × Option PyStr :=
  let r := resolveLoop refs
  if r.1 = naStr then
    match refs with
    | [] => r
    | first :: _ =>
      (first.external_id.getD naStr,
       match first.url with
       | some u => some u
       | none => r.2)
  else r

/-- Lines 189-195: `formatted_refs`. -/
def formatRefs (refs : List RawRef) : List RefOut :=
  refs.map fun r =>
    { source_name := r.source_name.getD []
      description := r.description
      url := r.url
      external_id := r.external_id }

/-- Line 185: `obj.get("x_mitre_detection") or "Нет данных о детекции"`. -/
def detectionOf (o : RawObj) : PyStr :=
  let d := o.detection.getD []
  if d = [] then pyStr "Нет данных о детекции" else d

/-- Line 200: `obj.get("description", "") or "Описание недоступно в STIX JSON."`. -/
def descriptionOf (o : RawObj) : PyStr :=
  let d := o.description.getD []
  if d = [] then pyStr "Описание недоступно в STIX JSON." else d

/-- The `tech_data` dict built on lines 197-208 for an attack-pattern. -/
def techDataOf (o : RawObj) : TechData :=
  let r := resolveExternal o.external_references
  { core :=
      { id := r.1
        name := o.name.getD (pyStr "Unknown")
        description := descriptionOf o
        platforms := o.platforms
        tactics := o.kill_chain_phases.map fun kc => pyLower (kc.phase_name.getD [])
        mitre_url := r.2
        detection := detectionOf o
        external_references := formatRefs o.external_references
        kill_chain_phases := o.kill_chain_phases.map fun kc => kc.phase_name.getD [] }
    stix_id := o.id.getD [] }

/-- The working state produced by pass 1 of `parse_matrix`. -/
structure P1 where
  techniques : List (Option PyStr × TechData)
  subtechniques : List (Option PyStr × TechData)
  tactics : List (PyStr × TacticData)
  matrix : List (PyStr × List TechObj)
deriving DecidableEq

/-- One iteration of the pass-1 loop (lines 150-217 of `src/main.py`). -/
def processObj (st : P1) (o : RawObj) : P1 :=
  if o.typ = pyStr "x-mitre-tactic" then
    let tacticName := pyHyphenate (pyLower (o.name.getD (pyStr "Unknown")))
    { st with
      tactics := updAssoc tacticName
        { name := o.name.getD (pyStr "Unknown")
          description := o.description.getD []
          shortname := o.shortname.getD [] } st.tactics
      matrix := updAssoc tacticName [] st.matrix }
  else if o.typ = pyStr "attack-pattern" then
    let td := techDataOf o
    if pyStartsWithB (pyStr "T") td.core.id then
      if o.is_subtechnique then
        { st with subtechniques := updAssoc o.id td st.subtechniques }
      else
        { st with techniques := updAssoc o.id td st.techniques }
    else st
  else st

/-- Pass 1 over the whole object list. -/
def pass1 (objs : List RawObj) : P1 :=
  objs.foldl processObj ⟨[], [], [], []⟩

/-! ## Index, pass 2, statistics -/

/-- Lines 219-224: index techniques then sub-techniques by lower-cased
ATT&CK id. -/
def buildIndex (P : P1) : List (PyStr × TechData) :=
  let i1 := P.techniques.foldl (fun a e => updAssoc (pyLower e.2.core.id) e.2 a) []
  P.subtechniques.foldl (fun a e => updAssoc (pyLower e.2.core.id) e.2 a) i1

/-- Ordering of technique records used by `matrix[t].sort(key=lambda x: x["id"])`. -/
def techLe (a b : TechObj) : Prop := strLe a.core.id b.core.id = true

/-- Ordering of sub-technique records used by
`sorted(technique_subtechniques, key=lambda x: x["id"])`. -/
def subLe (a b : SubRec) : Prop := strLe a.id b.id = true

instance : DecidableRel techLe := fun a b => by unfold techLe; infer_instance

instance : DecidableRel subLe := fun a b => by unfold subLe; infer_instance

instance : IsTotal TechObj techLe := ⟨fun a b => strLe_total a.core.id b.core.id⟩

instance : IsTrans TechObj techLe := ⟨fun _ _ _ h₁ h₂ => strLe_trans h₁ h₂⟩

instance : IsTotal SubRec subLe := ⟨fun a b => strLe_total a.id b.id⟩

instance : IsTrans SubRec subLe := ⟨fun _ _ _ h₁ h₂ => strLe_trans h₁ h₂⟩

/-- Lines 227-259: assemble one technique's matrix record — collect the
sub-techniques whose id extends the technique's id + `"."`, sort them by id,
and pair them with the technique's content fields. -/
def assembleTech (subs : List (Option PyStr × TechData)) (td : TechData) : TechObj :=
  { core := td.core
    subtechniques :=
      List.insertionSort subLe
        ((subs.filter fun e => pyStartsWithB (td.core.id ++ pyStr ".") e.2.core.id).map
          fun e => e.2.core) }

/-- Lines 261-263: append a technique record to every owning tactic's list
(silently skipped when the slug is not a matrix key). -/
def attach (m : List (PyStr × List TechObj)) (tob : TechObj) : List (PyStr × List TechObj) :=
  tob.core.tactics.foldl (fun acc tac => appendAt tac tob acc) m

/-- Line 270-272: total sub-technique count over the assembled matrix. -/
def totalSubsOf (m : List (PyStr × List TechObj)) : Nat :=
  (((m.map Prod.snd).flatten).map fun t => t.subtechniques.length).sum

/-- `parse_matrix` (lines 129-283 of `src/main.py`), as a total function from
the `objects` list of the raw bundle to the returned dataset dict. -/
def parse_matrix (objs : List RawObj) : Dataset :=
  let P := pass1 objs
  let idx := buildIndex P
  let m1 := P.techniques.foldl (fun m e => attach m (assembleTech P.subtechniques e.2)) P.matrix
  let m2 := m1.map fun p => (p.1, List.insertionSort techLe p.2)
  { tactics := P.tactics
    matrix := m2
    technique_index := idx
    statistics :=
      { total_tactics := P.tactics.length
        total_techniques := P.techniques.length
        total_subtechniques := totalSubsOf m2 } }

/-! ## Query layer: `get_technique` (lines 448-476 of `src/main.py`) -/

/-- The record returned by a lookup: from the index (a pass-1 `TechData`), or
from the matrix scan (a technique `TechObj` or a nested `SubRec`). -/
inductive Found where
  | fromIdx (d : TechData)
  | fromTech (t : TechObj)
  | fromSub (s : SubRec)
deriving DecidableEq

/-- Inner loop: first sub-technique of the list whose upper-cased id equals
the probe. -/
def findSubById (search : PyStr) : List SubRec → Option SubRec
  | [] => none
  | s :: ss => if pyUpper s.id = search then some s else findSubById search ss

/-- Scan of one tactic's technique list (lines 467-472): the technique itself
first, then its sub-techniques. -/
def scanTechs (search : PyStr) : List TechObj → Option Found
  | [] => none
  | t :: ts =>
    if pyUpper t.core.id = search then some (Found.fromTech t)
    else
      match findSubById search t.subtechniques with
      | some s => some (Found.fromSub s)
      | none => scanTechs search ts

/-- Full fallback scan over the matrix (lines 465-472). -/
def scanMatrix (search : PyStr) : List (PyStr × List TechObj) → Option Found
  | [] => none
  | p :: rest =>
    match scanTechs search p.2 with
    | some f => some f
    | none => scanMatrix search rest

/-- `get_technique` (lines 448-476): upper-case the requested id, try the
index, fall back to the linear matrix scan; `none` models the 404. -/
def get_technique (idx : List (PyStr × TechData)) (m : List (PyStr × List TechObj))
    (qid : PyStr) : Option Found :=
  let search := pyUpper qid
  match lookupA search idx with
  | some d => some (Found.fromIdx d)
  | none => scanMatrix search m

/-- The fallback-only variant of the lookup: the linear matrix scan alone,
never consulting the index. -/
def get_technique_fallback (m : List (PyStr × List TechObj)) (qid : PyStr) : Option Found :=
  scanMatrix (pyUpper qid) m

/-! ## Startup index rebuild (lines 365-377 of `src/main.py`) -/

/-- A record held by the rebuilt startup index: a matrix technique record or
a nested sub-technique record. -/
inductive RRec where
  | rtech (t : TechObj)
  | rsub (s : SubRec)
deriving DecidableEq

/-- The content fields of a rebuilt-index record. -/
def RRec.core : RRec → SubRec
  | .rtech t => t.core
  | .rsub s => s

/-- Lines 371-376: rebuild `technique_index` from a cached matrix — for each
technique in each tactic list, index the technique then its sub-techniques,
all by lower-cased id. -/
def rebuildIndex (m : List (PyStr × List TechObj)) : List (PyStr × RRec) :=
  m.foldl
    (fun acc p =>
      p.2.foldl
        (fun acc2 t =>
          t.subtechniques.foldl
            (fun a s => updAssoc (pyLower s.id) (RRec.rsub s) a)
            (updAssoc (pyLower t.core.id) (RRec.rtech t) acc2))
        acc)
    []

/-! ## Manual refresh endpoint (lines 528-552 of `src/main.py`) -/

/-- Outcome of the `/api/matrix/refresh` endpoint. -/
inductive RefreshOutcome where
  | alreadyInProgress
  | refreshed (d : Dataset)
  | failed
deriving DecidableEq

/-- The mutable application state (`AppState`, lines 42-51), restricted to
the fields the refresh endpoint touches. -/
structure AppState where
  matrix_data : Option Dataset
  technique_index : List (PyStr × TechData)
  update_interval : Nat
  is_updating : Bool
  update_count : Nat
deriving DecidableEq

/-- `refresh_matrix` (lines 528-552): reject with 429 when a refresh is in
flight; otherwise run download → parse → swap-in, clearing the flag in the
`finally` block.  The download result is passed in as `dl` (the network is
external to the model). -/
def refresh_matrix (st : AppState) (dl : Option (List RawObj)) :
    AppState × RefreshOutcome :=
  if st.is_updating then (st, RefreshOutcome.alreadyInProgress)
  else
    match dl with
    | some objs =>
      let d := parse_matrix objs
      ({ st with
          matrix_data := some d
          technique_index := d.technique_index
          update_count := st.update_count + 1
          is_updating := false },
       RefreshOutcome.refreshed d)
    | none => ({ st with is_updating := false }, RefreshOutcome.failed)

/-! ## Shared lemmas about the pipeline -/

theorem foldl_preserve {σ α : Type _} {P : σ → Prop} {f : σ → α → σ}
    (h : ∀ s a, P s → P (f s a)) :
    ∀ (l : List α) (s : σ), P s → P (l.foldl f s) := by
  intro l
  induction l with
  | nil => intro s hs; exact hs
  | cons a l ih => intro s hs; exact ih (f s a) (h s a hs)

theorem mem_insertAll {κ V : Type} [DecidableEq κ] {q : κ × V} :
    ∀ {ps acc : List (κ × V)}, q ∈ insertAll ps acc → q ∈ ps ∨ q ∈ acc := by
  intro ps
  induction ps with
  | nil => intro acc h; exact Or.inr h
  | cons p ps ih =>
    intro acc h
    rcases ih h with h | h
    · exact Or.inl (List.mem_cons_of_mem _ h)
    · rcases mem_updAssoc h with h | h
      · exact Or.inl (h ▸ List.mem_cons_self _ _)
      · exact Or.inr h

/-- The pass-1 invariant: every retained technique / sub-technique id starts
with `"T"` (line 211 guard), and every matrix value is still the empty list
seeded on line 160. -/
def P1Inv (st : P1) : Prop :=
  (∀ e ∈ st.techniques, pyStartsWithB (pyStr "T") e.2.core.id = true) ∧
  (∀ e ∈ st.subtechniques, pyStartsWithB (pyStr "T") e.2.core.id = true) ∧
  (∀ p ∈ st.matrix, p.2 = ([] : List TechObj))

theorem processObj_inv (st : P1) (o : RawObj) (h : P1Inv st) : P1Inv (processObj st o) := by
  obtain ⟨h1, h2, h3⟩ := h
  unfold processObj
  by_cases ht : o.typ = pyStr "x-mitre-tactic"
  · simp only [ht, if_pos]
    refine ⟨h1, h2, ?_⟩
    intro p hp
    rcases mem_updAssoc hp with hp | hp
    · rw [hp]
    · exact h3 p hp
  · by_cases ha : o.typ = pyStr "attack-pattern"
    · simp only [ht, ha, if_neg, not_false_iff, if_pos]
      by_cases hT : pyStartsWithB (pyStr "T") (techDataOf o).core.id = true
      · by_cases hs : o.is_subtechnique
        · simp only [hT, hs, if_pos]
          refine ⟨h1, ?_, h3⟩
          intro e he
          rcases mem_updAssoc he with he | he
          · rw [he]; exact hT
          · exact h2 e he
        · simp only [hT, if_pos, hs, if_neg, not_false_iff]
          refine ⟨?_, h2, h3⟩
          intro e he
          rcases mem_updAssoc he with he | he
          · rw [he]; exact hT
          · exact h1 e he
      · simp only [Bool.not_eq_true] at hT
        simp only [hT, Bool.false_eq_true, if_neg, not_false_iff]
        exact ⟨h1, h2, h3⟩
    · simp only [ht, ha, if_neg, not_false_iff]
      exact ⟨h1, h2, h3⟩

theorem pass1_inv (objs : List RawObj) : P1Inv (pass1 objs) :=
  foldl_preserve processObj_inv objs _ ⟨fun _ h => absurd h (List.not_mem_nil _),
    fun _ h => absurd h (List.not_mem_nil _), fun _ h => absurd h (List.not_mem_nil _)⟩

/-- The `(key, value)` pairs inserted into `technique_index`, in insertion
order. -/
def idxPairs (P : P1) : List (PyStr × TechData) :=
  (P.techniques ++ P.subtechniques).map fun e => (pyLower e.2.core.id, e.2)

theorem buildIndex_eq_insertAll (P : P1) : buildIndex P = insertAll (idxPairs P) [] := by
  simp [buildIndex, insertAll, idxPairs, List.foldl_append, List.foldl_map]

/-- A string that starts with `"T"` has code point 84 first. -/
theorem startsWithT_shape {s : PyStr} (h : pyStartsWithB (pyStr "T") s = true) :
    ∃ r, s = 84 :: r := by
  have hT : pyStr "T" = [84] := by decide
  rw [hT] at h
  match s with
  | [] => simp [pyStartsWithB] at h
  | b :: bs =>
    refine ⟨bs, ?_⟩
    by_cases hb : (84 : Nat) = b
    · rw [← hb]
    · simp [pyStartsWithB, hb] at h

/-- `str.upper` never produces a lower-case ASCII letter, in particular not
`"t"` (code point 116). -/
theorem upperN_ne_116 (n : Nat) : upperN n ≠ 116 := by
  unfold upperN
  split <;> omega

/-- Every key of the freshly built `technique_index` starts with the
lower-case letter `"t"` (code point 116). -/
theorem idx_key_shape {objs : List RawObj} {q : PyStr × TechData}
    (hq : q ∈ buildIndex (pass1 objs)) : ∃ r, q.1 = 116 :: r := by
  rw [buildIndex_eq_insertAll] at hq
  rcases mem_insertAll hq with hq | hq
  · rcases List.mem_map.mp hq with ⟨e, he, hqe⟩
    have hT : pyStartsWithB (pyStr "T") e.2.core.id = true := by
      rcases List.mem_append.mp he with he | he
      · exact (pass1_inv objs).1 e he
      · exact (pass1_inv objs).2.1 e he
    rcases startsWithT_shape hT with ⟨r, hr⟩
    refine ⟨pyLower r, ?_⟩
    rw [← hqe]
    show pyLower e.2.core.id = 116 :: pyLower r
    rw [hr]
    show lowerN 84 :: pyLower r = 116 :: pyLower r
    norm_num [lowerN]
  · simp at hq

/-- The upper-cased probe of `get_technique` never matches an index key: the
index stores only lower-cased `T…` identifiers. -/
theorem idx_probe_miss (objs : List RawObj) (qid : PyStr) :
    lookupA (pyUpper qid) (buildIndex (pass1 objs)) = none := by
  apply lookupA_eq_none
  intro q hq hcontra
  rcases idx_key_shape hq with ⟨r, hr⟩
  rw [hcontra] at hr
  match qid, hr with
  | [], hr => simp [pyUpper] at hr
  | n :: rest, hr =>
    simp only [pyUpper, List.map_cons, List.cons.injEq] at hr
    exact upperN_ne_116 n hr.1

theorem lookupA_map_snd {κ V W : Type} [DecidableEq κ] (k : κ) (f : V → W) :
    ∀ m : List (κ × V), lookupA k (m.map fun p => (p.1, f p.2)) = (lookupA k m).map f := by
  intro m
  induction m with
  | nil => rfl
  | cons p rest ih =>
    by_cases h : p.1 = k <;> simp [lookupA, h, ih]

theorem appendAt_pred {κ V : Type} [DecidableEq κ] {Q : V → Prop} {k : κ} {x : V}
    {m : List (κ × List V)} (hx : Q x) (hm : ∀ p ∈ m, ∀ y ∈ p.2, Q y) :
    ∀ p ∈ appendAt k x m, ∀ y ∈ p.2, Q y := by
  intro p hp y hy
  rcases mem_appendAt hp with ⟨p', hp', _, hsub⟩ | hp'
  · rcases hsub y hy with h | h
    · exact hm p' hp' y h
    · exact h ▸ hx
  · exact hm p hp' y hy

theorem attach_pred {Q : TechObj → Prop} {m : List (PyStr × List TechObj)} {tob : TechObj}
    (hx : Q tob) (hm : ∀ p ∈ m, ∀ y ∈ p.2, Q y) :
    ∀ p ∈ attach m tob, ∀ y ∈ p.2, Q y := by
  unfold attach
  refine foldl_preserve (P := fun m => ∀ p ∈ m, ∀ y ∈ p.2, Q y) ?_ _ m hm
  intro m' tac hm'
  exact appendAt_pred hx hm'

/-- Every technique record in the final matrix is an `assembleTech` of a
pass-1 technique entry. -/
theorem matrix_mem_assembled {objs : List RawObj} {p : PyStr × List TechObj}
    (hp : p ∈ (parse_matrix objs).matrix) {t : TechObj} (ht : t ∈ p.2) :
    ∃ e ∈ (pass1 objs).techniques, t = assembleTech (pass1 objs).subtechniques e.2 := by
  have hm1 : ∀ q ∈ (pass1 objs).techniques.foldl
      (fun m e => attach m (assembleTech (pass1 objs).subtechniques e.2)) (pass1 objs).matrix,
      ∀ y ∈ q.2, ∃ e ∈ (pass1 objs).techniques,
        y = assembleTech (pass1 objs).subtechniques e.2 := by
    have hstep : ∀ (m : List (PyStr × List TechObj)) (e : Option PyStr × TechData),
        (e ∈ (pass1 objs).techniques →
          (∀ q ∈ m, ∀ y ∈ q.2, ∃ e' ∈ (pass1 objs).techniques,
            y = assembleTech (pass1 objs).subtechniques e'.2)) →
        True := fun _ _ _ => trivial
    clear hstep
    -- fold over a sublist carrying membership: do induction directly
    have : ∀ (l : List (Option PyStr × TechData)),
        (∀ e ∈ l, e ∈ (pass1 objs).techniques) →
        ∀ (m : List (PyStr × List TechObj)),
        (∀ q ∈ m, ∀ y ∈ q.2, ∃ e' ∈ (pass1 objs).techniques,
          y = assembleTech (pass1 objs).subtechniques e'.2) →
        ∀ q ∈ l.foldl (fun m e => attach m (assembleTech (pass1 objs).subtechniques e.2)) m,
        ∀ y ∈ q.2, ∃ e' ∈ (pass1 objs).techniques,
          y = assembleTech (pass1 objs).subtechniques e'.2 := by
      intro l
      induction l with
      | nil => intro _ m hm; exact hm
      | cons e l ih =>
        intro hl m hm
        refine ih (fun e' he' => hl e' (List.mem_cons_of_mem _ he')) _ ?_
        exact attach_pred ⟨e, hl e (List.mem_cons_self _ _), rfl⟩ hm
    refine this _ (fun e he => he) _ ?_
    intro q hq y hy
    have := (pass1_inv objs).2.2 q hq
    rw [this] at hy
    exact absurd hy (List.not_mem_nil _)
  rcases List.mem_map.mp hp with ⟨q, hq, hqp⟩
  have hy : t ∈ List.insertionSort techLe q.2 := by
    rw [← hqp] at ht
    exact ht
  exact hm1 q hq t ((List.mem_insertionSort techLe).mp hy)

/-- Matrix keys are never created or destroyed by pass 2: a key is present in
the final matrix iff it was seeded in pass 1. -/
theorem matrix_hasKey (objs : List RawObj) (k : PyStr) :
    hasKeyB k (parse_matrix objs).matrix = hasKeyB k (pass1 objs).matrix := by
  show hasKeyB k (List.map _ (List.foldl _ (pass1 objs).matrix _)) = _
  have hmap : ∀ m : List (PyStr × List TechObj),
      hasKeyB k (m.map fun p => (p.1, List.insertionSort techLe p.2)) = hasKeyB k m := by
    intro m
    unfold hasKeyB
    rw [lookupA_map_snd]
    rcases lookupA k m with _ | v <;> simp
  rw [hmap]
  have hattach : ∀ (tob : TechObj) (m : List (PyStr × List TechObj)),
      hasKeyB k (attach m tob) = hasKeyB k m := by
    intro tob m
    unfold attach
    refine foldl_preserve (P := fun m' => hasKeyB k m' = hasKeyB k m) ?_ _ m rfl
    intro m' tac hm'
    rw [hasKeyB_appendAt, hm']
  refine foldl_preserve (P := fun m' => hasKeyB k m' = hasKeyB k (pass1 objs).matrix) ?_ _ _ rfl
  intro m' e hm'
  rw [hattach, hm']

/-- Membership in an assembled sub-technique list, characterised. -/
theorem mem_assembleTech {subs : List (Option PyStr × TechData)} {td : TechData} {s : SubRec} :
    s ∈ (assembleTech subs td).subtechniques ↔
      ∃ e ∈ subs, pyStartsWithB (td.core.id ++ pyStr ".") e.2.core.id = true ∧ e.2.core = s := by
  unfold assembleTech
  rw [List.mem_insertionSort]
  constructor
  · intro h
    rcases List.mem_map.mp h with ⟨e, he, hes⟩
    rcases List.mem_filter.mp he with ⟨he1, he2⟩
    exact ⟨e, he1, he2, hes⟩
  · intro ⟨e, he, hpre, hes⟩
    exact List.mem_map.mpr ⟨e, List.mem_filter.mpr ⟨he, hpre⟩, hes⟩

/-! ## Lemmas about the fallback scan -/

/-- The identifier carried by a lookup result. -/
def foundId : Found → PyStr
  | .fromIdx d => d.core.id
  | .fromTech t => t.core.id
  | .fromSub s => s.id

/-- A lookup result that is literally one of the records stored in the
matrix (a technique entry or a nested sub-technique entry). -/
def FoundInMatrix (f : Found) (m : List (PyStr × List TechObj)) : Prop :=
  match f with
  | .fromIdx _ => False
  | .fromTech t => ∃ p ∈ m, t ∈ p.2
  | .fromSub s => ∃ p ∈ m, ∃ t ∈ p.2, s ∈ t.subtechniques

theorem findSubById_sound {search : PyStr} {s : SubRec} :
    ∀ {ss : List SubRec}, findSubById search ss = some s →
      s ∈ ss ∧ pyUpper s.id = search := by
  intro ss
  induction ss with
  | nil => intro h; simp [findSubById] at h
  | cons x ss ih =>
    intro h
    by_cases hx : pyUpper x.id = search
    · simp only [findSubById, hx, if_pos, Option.some.injEq] at h
      subst h
      exact ⟨List.mem_cons_self _ _, hx⟩
    · simp only [findSubById, hx, if_neg, not_false_iff] at h
      rcases ih h with ⟨h1, h2⟩
      exact ⟨List.mem_cons_of_mem _ h1, h2⟩

theorem findSubById_isSome {search : PyStr} {s : SubRec} :
    ∀ {ss : List SubRec}, s ∈ ss → pyUpper s.id = search →
      (findSubById search ss).isSome := by
  intro ss
  induction ss with
  | nil => intro h; simp at h
  | cons x ss ih =>
    intro hmem hid
    by_cases hx : pyUpper x.id = search
    · simp [findSubById, hx]
    · rcases List.mem_cons.mp hmem with h | h
      · exact absurd (h ▸ hid) hx
      · simp only [findSubById, hx, if_neg, not_false_iff]
        exact ih h hid

theorem scanTechs_sound {search : PyStr} {f : Found} :
    ∀ {ts : List TechObj}, scanTechs search ts = some f →
      (∃ t ∈ ts, f = Found.fromTech t ∧ pyUpper t.core.id = search) ∨
      (∃ t ∈ ts, ∃ s ∈ t.subtechniques, f = Found.fromSub s ∧ pyUpper s.id = search) := by
  intro ts
  induction ts with
  | nil => intro h; simp [scanTechs] at h
  | cons t ts ih =>
    intro h
    by_cases hid : pyUpper t.core.id = search
    · simp only [scanTechs, hid, if_pos, Option.some.injEq] at h
      exact Or.inl ⟨t, List.mem_cons_self _ _, h.symm, hid⟩
    · simp only [scanTechs, hid, if_neg, not_false_iff] at h
      rcases hfs : findSubById search t.subtechniques with _ | s
      · rw [hfs] at h
        rcases ih h with ⟨t', ht', hf⟩ | ⟨t', ht', hf⟩
        · exact Or.inl ⟨t', List.mem_cons_of_mem _ ht', hf⟩
        · exact Or.inr ⟨t', List.mem_cons_of_mem _ ht', hf⟩
      · rw [hfs] at h
        cases h
        rcases findSubById_sound hfs with ⟨h1, h2⟩
        exact Or.inr ⟨t, List.mem_cons_self _ _, s, h1, rfl, h2⟩

theorem scanTechs_isSome {search : PyStr} :
    ∀ {ts : List TechObj},
      (∃ t ∈ ts, pyUpper t.core.id = search ∨ ∃ s ∈ t.subtechniques, pyUpper s.id = search) →
      (scanTechs search ts).isSome := by
  intro ts
  induction ts with
  | nil => intro ⟨t, ht, _⟩; exact absurd ht (List.not_mem_nil _)
  | cons t ts ih =>
    intro ⟨t', ht', hw⟩
    by_cases hid : pyUpper t.core.id = search
    · simp [scanTechs, hid]
    · simp only [scanTechs, hid, if_neg, not_false_iff]
      rcases hfs : findSubById search t.subtechniques with _ | s
    
      · rcases List.mem_cons.mp ht' with h | h
        · subst h
          rcases hw with hw | ⟨s, hs, hsid⟩
          · exact absurd hw hid
          · have := findSubById_isSome hs hsid
            rw [hfs] at this
            simp at this
        · exact ih ⟨t', h, hw⟩
      · simp

theorem scanMatrix_sound {search : PyStr} {f : Found} :
    ∀ {m : List (PyStr × List TechObj)}, scanMatrix search m = some f →
      pyUpper (foundId f) = search ∧ FoundInMatrix f m := by
  intro m
  induction m with
  | nil => intro h; simp [scanMatrix] at h
  | cons p rest ih =>
    intro h
    rcases hs : scanTechs search p.2 with _ | g
    · rw [scanMatrix, hs] at h
      rcases ih h with ⟨h1, h2⟩
      refine ⟨h1, ?_⟩
      unfold FoundInMatrix at h2 ⊢
      match f, h2 with
      | .fromTech t, ⟨q, hq, hmem⟩ => exact ⟨q, List.mem_cons_of_mem _ hq, hmem⟩
      | .fromSub s, ⟨q, hq, hmem⟩ => exact ⟨q, List.mem_cons_of_mem _ hq, hmem⟩
    · rw [scanMatrix, hs] at h
      cases h
      rcases scanTechs_sound hs with ⟨t, ht, hf, hid⟩ | ⟨t, ht, s, hsmem, hf, hid⟩
      · subst hf
        exact ⟨hid, p, List.mem_cons_self _ _, ht⟩
      · subst hf
        exact ⟨hid, p, List.mem_cons_self _ _, t, ht, hsmem⟩

theorem scanMatrix_isSome {search : PyStr} :
    ∀ {m : List (PyStr × List TechObj)},
      (∃ p ∈ m, ∃ t ∈ p.2,
        pyUpper t.core.id = search ∨ ∃ s ∈ t.subtechniques, pyUpper s.id = search) →
      (scanMatrix search m).isSome := by
  intro m
  induction m with
  | nil => intro ⟨p, hp, _⟩; exact absurd hp (List.not_mem_nil _)
  | cons q rest ih =>
    intro ⟨p, hp, t, ht, hw⟩
    rcases hs : scanTechs search q.2 with _ | g
    · rw [scanMatrix, hs]
      rcases List.mem_cons.mp hp with h | h
      · subst h
        have := scanTechs_isSome ⟨t, ht, hw⟩
        rw [hs] at this
        simp at this
      · exact ih ⟨p, h, t, ht, hw⟩
    · rw [scanMatrix, hs]
      simp

/-! ## The one-tactic scenario bundle

Bundle with one tactic "Initial Access", one technique `T1566` tagged to it
and one sub-technique `T1566.001` (the scenario of §8 of the spec). -/

def scenTactic : RawObj :=
  { typ := pyStr "x-mitre-tactic"
    id := some (pyStr "ta1")
    name := some (pyStr "Initial Access")
    description := some (pyStr "ta-desc")
    shortname := some (pyStr "initial-access")
    is_subtechnique := false
    kill_chain_phases := []
    external_references := []
    platforms := []
    detection := none }

def scenTech : RawObj :=
  { typ := pyStr "attack-pattern"
    id := some (pyStr "a1")
    name := some (pyStr "Phishing")
    description := some (pyStr "d1")
    shortname := none
    is_subtechnique := false
    kill_chain_phases := [⟨some (pyStr "Initial-Access")⟩]
    external_references :=
      [⟨some (pyStr "mitre-attack"), none, some (pyStr "u1"), some (pyStr "T1566")⟩]
    platforms := [pyStr "Linux"]
    detection := none }

def scenSub : RawObj :=
  { typ := pyStr "attack-pattern"
    id := some (pyStr "a2")
    name := some (pyStr "Spearphishing Attachment")
    description := some (pyStr "d2")
    shortname := none
    is_subtechnique := true
    kill_chain_phases := [⟨some (pyStr "initial-access")⟩]
    external_references :=
      [⟨some (pyStr "mitre-attack"), none, some (pyStr "u2"), some (pyStr "T1566.001")⟩]
    platforms := [pyStr "Linux"]
    detection := none }

def scenBundle : List RawObj := [scenTactic, scenTech, scenSub]

/-- The technique record the scenario's matrix carries for `T1566`. -/
def scenT1566 : TechObj :=
  assembleTech (pass1 scenBundle).subtechniques (techDataOf scenTech)

/-! ## Claim C9 — single-flight manual refresh -/

/-- Claim C9: a manual refresh trigger issued while `is_updating` is set is
rejected with `AlreadyInProgress` and the whole application state — current
dataset, index, refresh counter and the flag itself — is left unchanged; no
second refresh (download or parse) is started. -/
theorem refresh_single_flight (st : AppState) (dl : Option (List RawObj))
    (h : st.is_updating = true) :
    refresh_matrix st dl = (st, RefreshOutcome.alreadyInProgress) := by
  unfold refresh_matrix
  rw [h]
  simp

/-- Witness for C9 at a concrete in-flight state. -/
theorem refresh_single_flight_inst :
    refresh_matrix ⟨none, [], 86400, true, 3⟩ (some scenBundle) =
      (⟨none, [], 86400, true, 3⟩, RefreshOutcome.alreadyInProgress) :=
  refresh_single_flight ⟨none, [], 86400, true, 3⟩ (some scenBundle) rfl

/-! ## Claim C10 — the index branch of `get_technique` is dead -/

/-- Claim C10 (implicit): for every lookup id containing an alphabetic
character, the upper-cased probe of `get_technique` never matches a key of
the freshly parsed `technique_index` (all keys are lower-cased `t…` ids), so
the index branch never produces the result and `get_technique` coincides
with the fallback-only linear scan. -/
theorem get_technique_index_never_hits (objs : List RawObj) (qid : PyStr)
    (_h : ∃ c ∈ qid, (65 ≤ c ∧ c ≤ 90) ∨ (97 ≤ c ∧ c ≤ 122)) :
    lookupA (pyUpper qid) (parse_matrix objs).technique_index = none ∧
      get_technique (parse_matrix objs).technique_index (parse_matrix objs).matrix qid =
        get_technique_fallback (parse_matrix objs).matrix qid := by
  have hmiss : lookupA (pyUpper qid) (parse_matrix objs).technique_index = none :=
    idx_probe_miss objs qid
  refine ⟨hmiss, ?_⟩
  show (match lookupA (pyUpper qid) (parse_matrix objs).technique_index with
    | some d => some (Found.fromIdx d)
    | none => scanMatrix (pyUpper qid) (parse_matrix objs).matrix) =
    scanMatrix (pyUpper qid) (parse_matrix objs).matrix
  rw [hmiss]

/-- Witness for C10 at the scenario bundle and the lookup id `"t1566"`. -/
theorem get_technique_index_never_hits_inst :
    lookupA (pyUpper (pyStr "t1566")) (parse_matrix scenBundle).technique_index = none ∧
      get_technique (parse_matrix scenBundle).technique_index (parse_matrix scenBundle).matrix
          (pyStr "t1566") =
        get_technique_fallback (parse_matrix scenBundle).matrix (pyStr "t1566") :=
  get_technique_index_never_hits scenBundle (pyStr "t1566") (by decide)

/-! ## Claim C4 — case-insensitive lookup with index-then-scan -/

/-- Some record with the probed (upper-cased) id is present in the matrix. -/
def MatrixHasId (m : List (PyStr × List TechObj)) (search : PyStr) : Prop :=
  ∃ p ∈ m, ∃ t ∈ p.2,
    pyUpper t.core.id = search ∨ ∃ s ∈ t.subtechniques, pyUpper s.id = search

instance (m : List (PyStr × List TechObj)) (search : PyStr) :
    Decidable (MatrixHasId m search) := by
  unfold MatrixHasId
  infer_instance

/-- Claim C4 (amended): `get_technique` is case-insensitive for ids present
in the **Matrix** — for any casing of an id appearing in some tactic's
technique list or nested sub-technique list it returns a record of the
Matrix with that id (comparing upper-cased forms), the lookup consulting
the index first and otherwise falling back to the linear matrix scan; for
an id with no Matrix record the lookup returns not-found in every casing,
even when the id is present in the dataset's index (records attached to no
tactic — see the counterexample).  For the one-tactic scenario bundle,
`get_technique "t1566"` returns the `T1566` technique record carrying
exactly the single sub-technique `T1566.001`. -/
theorem get_technique_case_insensitive :
    (∀ (objs : List RawObj) (qid : PyStr),
      MatrixHasId (parse_matrix objs).matrix (pyUpper qid) →
      ∃ f, get_technique (parse_matrix objs).technique_index (parse_matrix objs).matrix qid
            = some f ∧
        pyUpper (foundId f) = pyUpper qid ∧ FoundInMatrix f (parse_matrix objs).matrix) ∧
    (∀ (objs : List RawObj) (qid : PyStr),
      ¬ MatrixHasId (parse_matrix objs).matrix (pyUpper qid) →
      get_technique (parse_matrix objs).technique_index (parse_matrix objs).matrix qid
        = none) ∧
    (get_technique (parse_matrix scenBundle).technique_index (parse_matrix scenBundle).matrix
        (pyStr "t1566") = some (Found.fromTech scenT1566) ∧
      scenT1566.core.id = pyStr "T1566" ∧
      scenT1566.subtechniques.map (fun s => s.id) = [pyStr "T1566.001"]) := by
  refine ⟨?_, ?_, ?_⟩
  · intro objs qid hhas
    have hmiss : lookupA (pyUpper qid) (parse_matrix objs).technique_index = none :=
      idx_probe_miss objs qid
    have hget : get_technique (parse_matrix objs).technique_index (parse_matrix objs).matrix qid
        = scanMatrix (pyUpper qid) (parse_matrix objs).matrix := by
      show (match lookupA (pyUpper qid) (parse_matrix objs).technique_index with
        | some d => some (Found.fromIdx d)
        | none => scanMatrix (pyUpper qid) (parse_matrix objs).matrix) = _
      rw [hmiss]
    have hsome : (scanMatrix (pyUpper qid) (parse_matrix objs).matrix).isSome :=
      scanMatrix_isSome hhas
    rcases hres : scanMatrix (pyUpper qid) (parse_matrix objs).matrix with _ | f
    · rw [hres] at hsome; simp at hsome
    · rcases scanMatrix_sound hres with ⟨h1, h2⟩
      exact ⟨f, by rw [hget, hres], h1, h2⟩
  · intro objs qid hno
    have hmiss : lookupA (pyUpper qid) (parse_matrix objs).technique_index = none :=
      idx_probe_miss objs qid
    have hget : get_technique (parse_matrix objs).technique_index (parse_matrix objs).matrix qid
        = scanMatrix (pyUpper qid) (parse_matrix objs).matrix := by
      show (match lookupA (pyUpper qid) (parse_matrix objs).technique_index with
        | some d => some (Found.fromIdx d)
        | none => scanMatrix (pyUpper qid) (parse_matrix objs).matrix) = _
      rw [hmiss]
    rw [hget]
    rcases hres : scanMatrix (pyUpper qid) (parse_matrix objs).matrix with _ | f
    · rfl
    · exfalso
      rcases scanMatrix_sound hres with ⟨h1, h2⟩
      apply hno
      unfold MatrixHasId
      cases f with
      | fromIdx d =>
        exact absurd h2 (by unfold FoundInMatrix; exact not_false)
      | fromTech t =>
        obtain ⟨p, hp, ht⟩ := h2
        exact ⟨p, hp, t, ht, Or.inl h1⟩
      | fromSub s =>
        obtain ⟨p, hp, t, ht, hs⟩ := h2
        exact ⟨p, hp, t, ht, Or.inr ⟨s, hs, h1⟩⟩
  · refine ⟨by decide, by decide, by decide⟩

/-- Witness for C4's general part at the scenario bundle, casing `"t1566"`. -/
theorem get_technique_case_insensitive_inst :
    ∃ f, get_technique (parse_matrix scenBundle).technique_index
          (parse_matrix scenBundle).matrix (pyStr "t1566") = some f ∧
      pyUpper (foundId f) = pyUpper (pyStr "t1566") ∧
      FoundInMatrix f (parse_matrix scenBundle).matrix :=
  get_technique_case_insensitive.1 scenBundle (pyStr "t1566") (by decide)

/-! ## Claim C1 — sub-technique attachment by exact string prefix -/

theorem count_core_filtered (g : (Option PyStr × TechData) → Bool) (s : SubRec) :
    ∀ l : List (Option PyStr × TechData),
      (((l.filter g).map fun e => e.2.core).count s)
        = l.countP (fun e => g e && decide (e.2.core = s)) := by
  intro l
  induction l with
  | nil => rfl
  | cons e l ih =>
    by_cases hg : g e
    · by_cases hc : e.2.core = s
      · simp [List.count_cons, List.countP_cons, hg, hc, ih]
      · simp [List.count_cons, List.countP_cons, hg, hc, ih]
    · simp [List.countP_cons, hg, ih]

theorem countP_core_unique {s : SubRec} (g : (Option PyStr × TechData) → Bool) :
    ∀ {l : List (Option PyStr × TechData)},
      ((l.map fun e => e.2.core.id).Nodup) →
      ∀ e' ∈ l, e'.2.core = s → g e' = true →
      l.countP (fun e => g e && decide (e.2.core = s)) = 1 := by
  intro l
  induction l with
  | nil => intro _ e' he'; exact absurd he' (List.not_mem_nil _)
  | cons e l ih =>
    intro hnd e' he' hcore hge
    simp only [List.map_cons, List.nodup_cons] at hnd
    obtain ⟨hhead, htail⟩ := hnd
    rcases List.mem_cons.mp he' with he' | he'
    · subst he'
      have h0 : l.countP (fun e => g e && decide (e.2.core = s)) = 0 := by
        refine List.countP_eq_zero.mpr ?_
        intro a ha hcontra
        simp only [Bool.and_eq_true, decide_eq_true_eq] at hcontra
        have : a.2.core.id = e'.2.core.id := by rw [hcontra.2, hcore]
        exact hhead (this ▸ List.mem_map_of_mem (fun e => e.2.core.id) ha)
      simp [List.countP_cons, h0, hge, hcore]
    · have hne : ¬ (g e && decide (e.2.core = s)) = true := by
        intro hcontra
        simp only [Bool.and_eq_true, decide_eq_true_eq] at hcontra
        have hid : e.2.core.id = e'.2.core.id := by rw [hcontra.2, hcore]
        exact hhead (hid ▸ List.mem_map_of_mem (fun e => e.2.core.id) he')
      simp only [List.countP_cons, hne, if_neg, not_false_iff]
      simpa using ih htail e' he' hcore hge

/-- Claim C1 (amended): for every bundle, a retained sub-technique record is
a member of a retained technique's assembled sub-technique list **iff** its
id extends the technique's id + `"."` (exact string prefix); every technique
record appearing in the final matrix is such an assembled record; and —
provided the retained sub-technique ids are pairwise distinct — a
prefix-matching sub-technique occurs in the technique's list exactly once.
(The original claim's unconditional "exactly once" fails when the bundle
contains two retained sub-technique records with the same external id.) -/
theorem subtech_attachment (objs : List RawObj) :
    (∀ e ∈ (pass1 objs).techniques, ∀ e' ∈ (pass1 objs).subtechniques,
      (e'.2.core ∈ (assembleTech (pass1 objs).subtechniques e.2).subtechniques ↔
        pyStartsWithB (e.2.core.id ++ pyStr ".") e'.2.core.id = true)) ∧
    (∀ p ∈ (parse_matrix objs).matrix, ∀ t ∈ p.2,
      ∃ e ∈ (pass1 objs).techniques, t = assembleTech (pass1 objs).subtechniques e.2) ∧
    (((pass1 objs).subtechniques.map fun e => e.2.core.id).Nodup →
      ∀ e ∈ (pass1 objs).techniques, ∀ e' ∈ (pass1 objs).subtechniques,
        pyStartsWithB (e.2.core.id ++ pyStr ".") e'.2.core.id = true →
        ((assembleTech (pass1 objs).subtechniques e.2).subtechniques.count e'.2.core) = 1) := by
  refine ⟨?_, ?_, ?_⟩
  · intro e _he e' he'
    constructor
    · intro hmem
      rcases mem_assembleTech.mp hmem with ⟨e'', _, hpre, hcore⟩
      have : e''.2.core.id = e'.2.core.id := congrArg SubRec.id hcore
      rw [this] at hpre
      exact hpre
    · intro hpre
      exact mem_assembleTech.mpr ⟨e', he', hpre, rfl⟩
  · intro p hp t ht
    exact matrix_mem_assembled hp ht
  · intro hnd e _he e' he' hpre
    unfold assembleTech
    rw [(List.perm_insertionSort subLe _).count_eq]
    rw [count_core_filtered]
    exact countP_core_unique _ hnd e' he' rfl hpre

/-- Witness for C1 at the one-tactic scenario bundle. -/
theorem subtech_attachment_inst :
    (((techDataOf scenSub).core ∈
        (assembleTech (pass1 scenBundle).subtechniques (techDataOf scenTech)).subtechniques) ↔
      pyStartsWithB ((techDataOf scenTech).core.id ++ pyStr ".")
        (techDataOf scenSub).core.id = true) ∧
    ((assembleTech (pass1 scenBundle).subtechniques
        (techDataOf scenTech)).subtechniques.count (techDataOf scenSub).core) = 1 :=
  ⟨(subtech_attachment scenBundle).1 (some (pyStr "a1"), techDataOf scenTech) (by decide)
      (some (pyStr "a2"), techDataOf scenSub) (by decide),
    (subtech_attachment scenBundle).2.2 (by decide)
      (some (pyStr "a1"), techDataOf scenTech) (by decide)
      (some (pyStr "a2"), techDataOf scenSub) (by decide) (by decide)⟩

/-! Counterexample bundle for C1 and C7: one tactic `x`, one technique
`T1000`, and two retained sub-technique records that both carry the external
id `T1000.001` (distinct STIX ids `b1`, `b2` — nothing in `parse_matrix`
rules this out). -/

def dupTactic : RawObj :=
  { typ := pyStr "x-mitre-tactic"
    id := some (pyStr "tx")
    name := some (pyStr "X")
    description := some (pyStr "dx")
    shortname := some (pyStr "x")
    is_subtechnique := false
    kill_chain_phases := []
    external_references := []
    platforms := []
    detection := none }

def dupTech : RawObj :=
  { typ := pyStr "attack-pattern"
    id := some (pyStr "a1")
    name := some (pyStr "Tech")
    description := some (pyStr "d")
    shortname := none
    is_subtechnique := false
    kill_chain_phases := [⟨some (pyStr "x")⟩]
    external_references := [⟨some (pyStr "mitre-attack"), none, none, some (pyStr "T1000")⟩]
    platforms := []
    detection := none }

def dupSub1 : RawObj :=
  { typ := pyStr "attack-pattern"
    id := some (pyStr "b1")
    name := some (pyStr "Sub")
    description := some (pyStr "d")
    shortname := none
    is_subtechnique := true
    kill_chain_phases := [⟨some (pyStr "x")⟩]
    external_references := [⟨some (pyStr "mitre-attack"), none, none, some (pyStr "T1000.001")⟩]
    platforms := []
    detection := none }

def dupSub2 : RawObj :=
  { typ := pyStr "attack-pattern"
    id := some (pyStr "b2")
    name := some (pyStr "Sub")
    description := some (pyStr "d")
    shortname := none
    is_subtechnique := true
    kill_chain_phases := [⟨some (pyStr "x")⟩]
    external_references := [⟨some (pyStr "mitre-attack"), none, none, some (pyStr "T1000.001")⟩]
    platforms := []
    detection := none }

def dupBundle : List RawObj := [dupTactic, dupTech, dupSub1, dupSub2]

/-- A retained technique whose kill-chain phases name no tactic: it is
indexed and counted, but attached to no tactic's technique list. -/
def noTacticTech : RawObj :=
  { typ := pyStr "attack-pattern"
    id := some (pyStr "a7")
    name := some (pyStr "Lone")
    description := some (pyStr "d7")
    shortname := none
    is_subtechnique := false
    kill_chain_phases := []
    external_references := [⟨some (pyStr "mitre-attack"), none, none, some (pyStr "T2000")⟩]
    platforms := []
    detection := none }

/-- The bundle of the C4 counterexample: one tactic `x`, an orphan
sub-technique `T1000.001` (parent technique absent) and a tactic-less
technique `T2000`. -/
def c4Bundle : List RawObj := [dupTactic, dupSub1, noTacticTech]

/-- Counterexample to C4 as stated: the ids `T2000` and `T1000.001` are
present in the dataset — both sit in `technique_index`, and `T2000` is even
counted in the statistics — yet `get_technique` returns not-found for them
in every casing: the upper-cased probe misses the lower-cased index keys
and the fallback scans only the matrix, where records attached to no
tactic (or to no parent technique) never appear. -/
theorem get_technique_dataset_cex :
    (lookupA (pyStr "t2000") (parse_matrix c4Bundle).technique_index).isSome = true ∧
      (parse_matrix c4Bundle).statistics.total_techniques = 1 ∧
      get_technique (parse_matrix c4Bundle).technique_index (parse_matrix c4Bundle).matrix
        (pyStr "t2000") = none ∧
      get_technique (parse_matrix c4Bundle).technique_index (parse_matrix c4Bundle).matrix
        (pyStr "T2000") = none ∧
      (lookupA (pyStr "t1000.001") (parse_matrix c4Bundle).technique_index).isSome = true ∧
      get_technique (parse_matrix c4Bundle).technique_index (parse_matrix c4Bundle).matrix
        (pyStr "T1000.001") = none := by
  decide

/-- Counterexample to C1 as stated: in `dupBundle` the sub-technique record
`T1000.001` prefix-matches technique `T1000`, yet the technique record in
the parsed matrix carries it **twice**, not exactly once. -/
theorem subtech_exactly_once_cex :
    pyStartsWithB ((techDataOf dupTech).core.id ++ pyStr ".")
        (techDataOf dupSub1).core.id = true ∧
      ((parse_matrix dupBundle).matrix.map fun p =>
        p.2.map fun t => t.subtechniques.count (techDataOf dupSub1).core) = [[2]] := by
  decide

/-! ## Claim C7 — ordering of technique / sub-technique lists -/

theorem pairwise_strLt_of_le_nodup {l : List PyStr}
    (hle : List.Pairwise (fun a b => strLe a b = true) l) (hnd : l.Nodup) :
    List.Pairwise (fun a b => strLt a b = true) l :=
  (hle.and hnd).imp fun h => strLt_of_le_of_ne h.1 h.2

/-- Claim C7 (amended): after every normalization pass, the identifiers of
every tactic's technique list and of every technique's sub-technique list
are in ascending — in general non-strict — lexicographic order, and the
order is strict whenever the identifiers in the list are pairwise distinct.
(The original unconditionally-strict claim fails when duplicate retained
ids occur, see the counterexample.) -/
theorem matrix_ordering (objs : List RawObj) :
    ∀ p ∈ (parse_matrix objs).matrix,
      (List.Pairwise (fun a b => strLe a b = true) (p.2.map fun t => t.core.id) ∧
        ((p.2.map fun t => t.core.id).Nodup →
          List.Pairwise (fun a b => strLt a b = true) (p.2.map fun t => t.core.id))) ∧
      ∀ t ∈ p.2,
        List.Pairwise (fun a b => strLe a b = true) (t.subtechniques.map fun s => s.id) ∧
        ((t.subtechniques.map fun s => s.id).Nodup →
          List.Pairwise (fun a b => strLt a b = true) (t.subtechniques.map fun s => s.id)) := by
  intro p hp
  constructor
  · have hsorted : List.Pairwise (fun a b => strLe a b = true) (p.2.map fun t => t.core.id) := by
      rcases List.mem_map.mp hp with ⟨q, _, hq⟩
      have : List.Sorted techLe (List.insertionSort techLe q.2) :=
        List.sorted_insertionSort techLe q.2
      have hlist : p.2 = List.insertionSort techLe q.2 := by rw [← hq]
      rw [hlist]
      exact List.Pairwise.map _ (fun a b h => h) this
    exact ⟨hsorted, fun hnd => pairwise_strLt_of_le_nodup hsorted hnd⟩
  · intro t ht
    rcases matrix_mem_assembled hp ht with ⟨e, _, hte⟩
    have hsorted : List.Pairwise (fun a b => strLe a b = true)
        (t.subtechniques.map fun s => s.id) := by
      have : List.Sorted subLe (assembleTech (pass1 objs).subtechniques e.2).subtechniques :=
        List.sorted_insertionSort subLe _
      rw [hte]
      exact List.Pairwise.map _ (fun a b h => h) this
    exact ⟨hsorted, fun hnd => pairwise_strLt_of_le_nodup hsorted hnd⟩

/-- Witness for C7 at the scenario bundle's (single) matrix entry. -/
theorem matrix_ordering_inst :
    (List.Pairwise (fun a b => strLe a b = true)
        ((parse_matrix scenBundle).matrix.headI.2.map fun t => t.core.id) ∧
      (((parse_matrix scenBundle).matrix.headI.2.map fun t => t.core.id).Nodup →
        List.Pairwise (fun a b => strLt a b = true)
          ((parse_matrix scenBundle).matrix.headI.2.map fun t => t.core.id))) ∧
    ∀ t ∈ (parse_matrix scenBundle).matrix.headI.2,
      List.Pairwise (fun a b => strLe a b = true) (t.subtechniques.map fun s => s.id) ∧
      ((t.subtechniques.map fun s => s.id).Nodup →
        List.Pairwise (fun a b => strLt a b = true) (t.subtechniques.map fun s => s.id)) :=
  matrix_ordering scenBundle (parse_matrix scenBundle).matrix.headI (by decide)

/-- Counterexample to C7 as stated: in `dupBundle`'s parsed matrix, the
technique `T1000` carries the sub-technique id `T1000.001` twice, so the
sub-technique identifiers are not strictly ascending. -/
theorem matrix_ordering_strict_cex :
    ¬ ∀ p ∈ (parse_matrix dupBundle).matrix, ∀ t ∈ p.2,
      List.Pairwise (fun a b => strLt a b = true) (t.subtechniques.map fun s => s.id) := by
  decide

/-! ## Claim C6 — external-id resolution and the `T` filter -/

/-- The resolution rule exactly as the claim words it (for comparison with
the code): take the external id of the first alias-matching reference; only
when no alias matches fall back to the first reference present. -/
def resolveIdClaim (refs : List RawRef) : PyStr :=
  match refs.find? fun r => isMitreAlias r.source_name with
  | some r => r.external_id.getD naStr
  | none =>
    match refs with
    | [] => naStr
    | first :: _ => first.external_id.getD naStr

/-- Fallback of the amended rule: the first reference's external id. -/
def fallbackFirstId (refs : List RawRef) : PyStr :=
  match refs with
  | [] => naStr
  | first :: _ => first.external_id.getD naStr

/-- The amended resolution rule: the external id of the first alias-matching
reference when that reference carries one (other than the literal
placeholder `"N/A"`); otherwise — no alias match, or the matching reference
lacks an external id — the first reference's external id. -/
def resolveIdAmended (refs : List RawRef) : PyStr :=
  match refs.find? fun r => isMitreAlias r.source_name with
  | some r =>
    match r.external_id with
    | some e => if e = naStr then fallbackFirstId refs else e
    | none => fallbackFirstId refs
  | none => fallbackFirstId refs

/-- An attack-pattern record is kept by `parse_matrix` iff its resolved id
starts with `"T"` (line 211). -/
def keepObjB (o : RawObj) : Bool :=
  !(decide (o.typ = pyStr "attack-pattern") &&
    !(pyStartsWithB (pyStr "T") (resolveExternal o.external_references).1))

theorem resolveLoop_fst (refs : List RawRef) :
    (resolveLoop refs).1 =
      match refs.find? fun r => isMitreAlias r.source_name with
      | some r => r.external_id.getD naStr
      | none => naStr := by
  induction refs with
  | nil => rfl
  | cons r rs ih =>
    by_cases h : isMitreAlias r.source_name
    · simp [resolveLoop, List.find?, h]
    · simp only [resolveLoop, h, Bool.false_eq_true, if_neg, not_false_iff]
      rw [ih]
      simp [List.find?, h]

theorem resolveExternal_fst (refs : List RawRef) :
    (resolveExternal refs).1 =
      if (resolveLoop refs).1 = naStr then fallbackFirstId refs
      else (resolveLoop refs).1 := by
  unfold resolveExternal fallbackFirstId
  rcases refs with _ | ⟨first, rest⟩
  · simp [resolveLoop]
  · by_cases h : (resolveLoop (first :: rest)).1 = naStr <;> simp [h]

theorem processObj_dropped {o : RawObj} (st : P1)
    (hap : o.typ = pyStr "attack-pattern")
    (hno : pyStartsWithB (pyStr "T") (resolveExternal o.external_references).1 = false) :
    processObj st o = st := by
  have hne : o.typ ≠ pyStr "x-mitre-tactic" := by
    rw [hap]; decide
  have hno2 : pyStartsWithB (pyStr "T") (techDataOf o).core.id = false := hno
  unfold processObj
  rw [if_neg hne, if_pos hap]
  simp [hno2]

theorem foldl_filter {σ α : Type _} (f : σ → α → σ) (p : α → Bool)
    (hdrop : ∀ s a, p a = false → f s a = s) :
    ∀ (l : List α) (s : σ), l.foldl f s = (l.filter p).foldl f s := by
  intro l
  induction l with
  | nil => intro s; rfl
  | cons a l ih =>
    intro s
    by_cases hp : p a
    · simp [List.filter_cons, hp, ih]
    · simp only [Bool.not_eq_true] at hp
      simp [List.filter_cons, hp, hdrop s a hp, ih]

theorem pass1_filter (objs : List RawObj) :
    pass1 objs = pass1 (objs.filter keepObjB) := by
  unfold pass1
  refine foldl_filter processObj keepObjB ?_ objs _
  intro st o hdrop
  unfold keepObjB at hdrop
  simp at hdrop
  exact processObj_dropped st hdrop.1 hdrop.2

/-- Claim C6 (amended): the resolved external identifier equals the amended
rule — the first alias-matching reference's id when it carries one other
than the `"N/A"` placeholder, else the first reference's id — and records
whose resolved id does not start with `"T"` are discarded entirely: deleting
them from the bundle leaves the entire parse result (matrix, index,
statistics) unchanged.  (The original claim's rule — fall back to the first
reference **only when no alias matches** — is refuted by the
counterexample.) -/
theorem resolve_external_and_filter :
    (∀ refs : List RawRef, (resolveExternal refs).1 = resolveIdAmended refs) ∧
    (∀ objs : List RawObj, parse_matrix objs = parse_matrix (objs.filter keepObjB)) := by
  constructor
  · intro refs
    rw [resolveExternal_fst, resolveLoop_fst]
    unfold resolveIdAmended
    rcases hf : refs.find? fun r => isMitreAlias r.source_name with _ | r <;> rw [hf]
    · simp
    · rcases hre : r.external_id with _ | e
      · simp [hre]
      · by_cases hna : e = naStr <;> simp [hre, hna]
  · intro objs
    have hpass := pass1_filter objs
    unfold parse_matrix
    rw [hpass]

/-- The reference list of the C6 counterexample: the first reference is a
non-MITRE source carrying `T9999`; the second is the alias-matching
`mitre-attack` reference, but it has no `external_id` field. -/
def cexAliasRefs : List RawRef :=
  [⟨some (pyStr "capec"), none, none, some (pyStr "T9999")⟩,
   ⟨some (pyStr "mitre-attack"), none, none, none⟩]

def cexAliasObj : RawObj :=
  { typ := pyStr "attack-pattern"
    id := some (pyStr "a9")
    name := some (pyStr "Tech9")
    description := some (pyStr "d9")
    shortname := none
    is_subtechnique := false
    kill_chain_phases := []
    external_references := cexAliasRefs
    platforms := []
    detection := none }

/-- Counterexample to C6 as stated: an alias-matching reference exists, so
under the claim's rule the resolved id is that reference's (absent, hence
`"N/A"`) id, which does not begin with `T` — the record should be discarded
and not counted.  The code instead falls back to the first reference,
resolves `T9999`, keeps the record, counts it and indexes it. -/
theorem resolve_external_cex :
    pyStartsWithB (pyStr "T") (resolveIdClaim cexAliasRefs) = false ∧
      (resolveExternal cexAliasRefs).1 = pyStr "T9999" ∧
      (parse_matrix [cexAliasObj]).statistics.total_techniques = 1 ∧
      (parse_matrix [cexAliasObj]).technique_index ≠ [] := by
  decide

/-! ## Claim C3 — statistics -/

/-- Sub-technique total contributed by one tactic row. -/
def rowTotal (ts : List TechObj) : Nat :=
  (ts.map fun t => t.subtechniques.length).sum

theorem totalSubsOf_nil : totalSubsOf [] = 0 := rfl

theorem totalSubsOf_cons (p : PyStr × List TechObj) (m : List (PyStr × List TechObj)) :
    totalSubsOf (p :: m) = rowTotal p.2 + totalSubsOf m := by
  simp [totalSubsOf, rowTotal]

theorem countP_congr_mem {α : Type _} {l : List α} {p q : α → Bool}
    (h : ∀ a ∈ l, p a = q a) : l.countP p = l.countP q := by
  induction l with
  | nil => rfl
  | cons a l ih =>
    have ha := h a (List.mem_cons_self _ _)
    have ih2 := ih fun a' ha' => h a' (List.mem_cons_of_mem _ ha')
    simp [List.countP_cons, ha, ih2]

theorem totalSubsOf_appendAt (k : PyStr) (x : TechObj) :
    ∀ m : List (PyStr × List TechObj),
      totalSubsOf (appendAt k x m) =
        totalSubsOf m + (if hasKeyB k m then x.subtechniques.length else 0) := by
  intro m
  induction m with
  | nil => simp [appendAt, hasKeyB, lookupA, totalSubsOf]
  | cons p rest ih =>
    show totalSubsOf (if p.1 = k then (p.1, p.2 ++ [x]) :: rest else p :: appendAt k x rest) = _
    by_cases hp : p.1 = k
    · rw [if_pos hp]
      have hkey : hasKeyB k (p :: rest) = true := by simp [hasKeyB, lookupA, hp]
      rw [hkey, totalSubsOf_cons, totalSubsOf_cons]
      simp [rowTotal]
      omega
    · rw [if_neg hp]
      have hkey : hasKeyB k (p :: rest) = hasKeyB k rest := by simp [hasKeyB, lookupA, hp]
      rw [hkey, totalSubsOf_cons, totalSubsOf_cons, ih]
      omega

theorem hasKeyB_attach (k : PyStr) (m : List (PyStr × List TechObj)) (tob : TechObj) :
    hasKeyB k (attach m tob) = hasKeyB k m := by
  unfold attach
  refine foldl_preserve (P := fun m' => hasKeyB k m' = hasKeyB k m) ?_ _ m rfl
  intro m' tac hm'
  rw [hasKeyB_appendAt, hm']

theorem totalSubsOf_attach (tob : TechObj) :
    ∀ (l : List PyStr) (m : List (PyStr × List TechObj)),
      totalSubsOf (l.foldl (fun acc tac => appendAt tac tob acc) m) =
        totalSubsOf m +
          (l.countP fun tac => hasKeyB tac m) * tob.subtechniques.length := by
  intro l
  induction l with
  | nil => intro m; simp
  | cons tac l ih =>
    intro m
    show totalSubsOf (l.foldl _ (appendAt tac tob m)) = _
    rw [ih (appendAt tac tob m)]
    rw [totalSubsOf_appendAt]
    have hcong : (l.countP fun t => hasKeyB t (appendAt tac tob m)) =
        (l.countP fun t => hasKeyB t m) :=
      countP_congr_mem fun a _ => hasKeyB_appendAt a tac tob m
    rw [hcong, List.countP_cons]
    by_cases hk : hasKeyB tac m <;> (simp [hk]; try ring)

theorem attach_total_eq (m : List (PyStr × List TechObj)) (tob : TechObj) :
    totalSubsOf (attach m tob) =
      totalSubsOf m + (tob.core.tactics.countP fun tac => hasKeyB tac m) *
        tob.subtechniques.length :=
  totalSubsOf_attach tob tob.core.tactics m

theorem totalSubsOf_sortRows (m : List (PyStr × List TechObj)) :
    totalSubsOf (m.map fun p => (p.1, List.insertionSort techLe p.2)) = totalSubsOf m := by
  induction m with
  | nil => rfl
  | cons p rest ih =>
    rw [List.map_cons, totalSubsOf_cons, totalSubsOf_cons, ih]
    have : rowTotal (List.insertionSort techLe p.2) = rowTotal p.2 := by
      unfold rowTotal
      exact ((List.perm_insertionSort techLe p.2).map fun t => t.subtechniques.length).sum_eq
    rw [this]

/-- Claim C3 (amended): the statistics report the tactic count, the count of
retained technique records, and a sub-technique total that counts each
technique **once per owning-tactic occurrence in the matrix** (once for
every kill-chain phase that names a known tactic slug), not once per
technique; for the one-tactic scenario bundle the counts are
tactics = 1, techniques = 1, subtechniques = 1. -/
theorem statistics_counts :
    (∀ objs : List RawObj,
      (parse_matrix objs).statistics.total_tactics = (pass1 objs).tactics.length ∧
      (parse_matrix objs).statistics.total_techniques = (pass1 objs).techniques.length ∧
      (parse_matrix objs).statistics.total_subtechniques =
        ((pass1 objs).techniques.map fun e =>
          (e.2.core.tactics.countP fun tac => hasKeyB tac (pass1 objs).matrix) *
            (assembleTech (pass1 objs).subtechniques e.2).subtechniques.length).sum) ∧
    (parse_matrix scenBundle).statistics = ⟨1, 1, 1⟩ := by
  constructor
  · intro objs
    refine ⟨rfl, rfl, ?_⟩
    show totalSubsOf ((List.foldl _ (pass1 objs).matrix (pass1 objs).techniques).map _) = _
    rw [totalSubsOf_sortRows]
    have hzero : ∀ m : List (PyStr × List TechObj),
        (∀ p ∈ m, p.2 = ([] : List TechObj)) → totalSubsOf m = 0 := by
      intro m
      induction m with
      | nil => intro _; rfl
      | cons p rest ih =>
        intro hval
        rw [totalSubsOf_cons, hval p (List.mem_cons_self _ _),
          ih fun q hq => hval q (List.mem_cons_of_mem _ hq)]
        rfl
    have hmain : ∀ (l : List (Option PyStr × TechData)) (m : List (PyStr × List TechObj)),
        totalSubsOf (l.foldl (fun acc e => attach acc (assembleTech (pass1 objs).subtechniques e.2)) m) =
          totalSubsOf m +
            (l.map fun e =>
              (e.2.core.tactics.countP fun tac => hasKeyB tac m) *
                (assembleTech (pass1 objs).subtechniques e.2).subtechniques.length).sum := by
      intro l
      induction l with
      | nil => intro m; simp
      | cons e l ih =>
        intro m
        show totalSubsOf (l.foldl _ (attach m (assembleTech (pass1 objs).subtechniques e.2))) = _
        rw [ih, attach_total_eq]
        have hcong : (l.map fun e' =>
            ((e'.2.core.tactics.countP fun tac =>
              hasKeyB tac (attach m (assembleTech (pass1 objs).subtechniques e.2))) *
                (assembleTech (pass1 objs).subtechniques e'.2).subtechniques.length)) =
            (l.map fun e' =>
              ((e'.2.core.tactics.countP fun tac => hasKeyB tac m) *
                (assembleTech (pass1 objs).subtechniques e'.2).subtechniques.length)) := by
          refine List.map_congr_left ?_
          intro e' _
          have : (e'.2.core.tactics.countP fun tac =>
              hasKeyB tac (attach m (assembleTech (pass1 objs).subtechniques e.2))) =
              (e'.2.core.tactics.countP fun tac => hasKeyB tac m) :=
            countP_congr_mem fun a _ => hasKeyB_attach a m _
          rw [this]
        rw [hcong]
        have hcore : (assembleTech (pass1 objs).subtechniques e.2).core.tactics
            = e.2.core.tactics := rfl
        rw [hcore]
        simp
        omega
    rw [hmain, hzero (pass1 objs).matrix (pass1_inv objs).2.2]
    simp
  · decide

/-! Counterexample bundle for C3: two tactics `x`, `y`, one technique
`T1000` tagged to both, one sub-technique `T1000.001`. -/

def twoTacticY : RawObj :=
  { typ := pyStr "x-mitre-tactic"
    id := some (pyStr "ty")
    name := some (pyStr "Y")
    description := some (pyStr "dy")
    shortname := some (pyStr "y")
    is_subtechnique := false
    kill_chain_phases := []
    external_references := []
    platforms := []
    detection := none }

def twoTacticTech : RawObj :=
  { typ := pyStr "attack-pattern"
    id := some (pyStr "a1")
    name := some (pyStr "Tech")
    description := some (pyStr "d")
    shortname := none
    is_subtechnique := false
    kill_chain_phases := [⟨some (pyStr "x")⟩, ⟨some (pyStr "y")⟩]
    external_references := [⟨some (pyStr "mitre-attack"), none, none, some (pyStr "T1000")⟩]
    platforms := []
    detection := none }

def twoTacticSub : RawObj :=
  { typ := pyStr "attack-pattern"
    id := some (pyStr "b1")
    name := some (pyStr "Sub")
    description := some (pyStr "d")
    shortname := none
    is_subtechnique := true
    kill_chain_phases := [⟨some (pyStr "x")⟩]
    external_references := [⟨some (pyStr "mitre-attack"), none, none, some (pyStr "T1000.001")⟩]
    platforms := []
    detection := none }

def twoTacticBundle : List RawObj := [dupTactic, twoTacticY, twoTacticTech, twoTacticSub]

/-- Counterexample to C3 as stated: in `twoTacticBundle` there is a single
technique whose attached sub-technique list has length 1, so the sum over
all techniques — each counted once — is 1; yet the reported
`total_subtechniques` is 2, because the code sums over the matrix, counting
the technique once per owning tactic. -/
theorem statistics_per_technique_cex :
    (parse_matrix twoTacticBundle).statistics.total_subtechniques = 2 ∧
      ((pass1 twoTacticBundle).techniques.map fun e =>
        (assembleTech (pass1 twoTacticBundle).subtechniques e.2).subtechniques.length).sum
        = 1 := by
  decide

/-! ## JSON values

Model of the parsed content of the cache file (`json.dump` / `json.load`
round-trip values) and common ground for comparing the differently shaped
dicts the code stores in the index and in the matrix. -/

inductive Json where
  | jnull
  | jstr (s : PyStr)
  | jnat (n : Nat)
  | jarr (xs : List Json)
  | jobj (fields : List (PyStr × Json))

def jsonHasKey (k : PyStr) : Json → Bool
  | .jobj fields => fields.any fun p => decide (p.1 = k)
  | _ => false

def kId : PyStr := pyStr "id"
def kName : PyStr := pyStr "name"
def kDescription : PyStr := pyStr "description"
def kPlatforms : PyStr := pyStr "platforms"
def kTactics : PyStr := pyStr "tactics"
def kMitreUrl : PyStr := pyStr "mitre_url"
def kDetection : PyStr := pyStr "detection"
def kExtRefs : PyStr := pyStr "external_references"
def kKcp : PyStr := pyStr "kill_chain_phases"
def kStixId : PyStr := pyStr "stix_id"
def kSubtechniques : PyStr := pyStr "subtechniques"
def kSourceName : PyStr := pyStr "source_name"
def kUrl : PyStr := pyStr "url"
def kExternalId : PyStr := pyStr "external_id"
def kShortname : PyStr := pyStr "shortname"
def kMatrix : PyStr := pyStr "matrix"
def kStatistics : PyStr := pyStr "statistics"
def kTotTactics : PyStr := pyStr "total_tactics"
def kTotTechniques : PyStr := pyStr "total_techniques"
def kTotSubtechniques : PyStr := pyStr "total_subtechniques"

def encOptStr : Option PyStr → Json
  | none => .jnull
  | some s => .jstr s

def encStrList (l : List PyStr) : Json := .jarr (l.map Json.jstr)

def encRefOut (r : RefOut) : Json :=
  .jobj [(kSourceName, .jstr r.source_name), (kDescription, encOptStr r.description),
    (kUrl, encOptStr r.url), (kExternalId, encOptStr r.external_id)]

/-- The nine content fields, in the key order the code builds them. -/
def encSubFields (c : SubRec) : List (PyStr × Json) :=
  [(kId, .jstr c.id), (kName, .jstr c.name), (kDescription, .jstr c.description),
   (kPlatforms, encStrList c.platforms), (kTactics, encStrList c.tactics),
   (kMitreUrl, encOptStr c.mitre_url), (kDetection, .jstr c.detection),
   (kExtRefs, .jarr (c.external_references.map encRefOut)),
   (kKcp, encStrList c.kill_chain_phases)]

/-- The sub-technique dict stored in the matrix (9 keys). -/
def encSubRec (c : SubRec) : Json := .jobj (encSubFields c)

/-- The pass-1 `tech_data` dict stored in the index (9 keys + `stix_id`). -/
def encTechData (td : TechData) : Json :=
  .jobj (encSubFields td.core ++ [(kStixId, .jstr td.stix_id)])

/-- The technique dict stored in the matrix (9 keys + `subtechniques`). -/
def encTechObj (t : TechObj) : Json :=
  .jobj (encSubFields t.core ++ [(kSubtechniques, .jarr (t.subtechniques.map encSubRec))])

/-! ## Claim C2 — index / matrix consistency -/

instance : Inhabited SubRec := ⟨⟨[], [], [], [], [], none, [], [], []⟩⟩

instance : Inhabited TechObj := ⟨⟨default, []⟩⟩

instance : Inhabited TechData := ⟨⟨default, []⟩⟩

theorem lookup_buildIndex_present {P : P1} {e : Option PyStr × TechData}
    (he : e ∈ P.techniques ++ P.subtechniques) :
    ∃ v, lookupA (pyLower e.2.core.id) (buildIndex P) = some v := by
  rw [buildIndex_eq_insertAll, lookupA_insertAll]
  have hpair : (pyLower e.2.core.id, e.2) ∈ idxPairs P :=
    List.mem_map_of_mem (fun e => (pyLower e.2.core.id, e.2)) he
  rcases lastVal_isSome_of_mem hpair with ⟨w, hw⟩
  exact ⟨w, by rw [hw]⟩

theorem lookup_buildIndex_nodup {P : P1} {e : Option PyStr × TechData}
    (hnd : ((idxPairs P).map Prod.fst).Nodup)
    (he : e ∈ P.techniques ++ P.subtechniques) :
    lookupA (pyLower e.2.core.id) (buildIndex P) = some e.2 := by
  rw [buildIndex_eq_insertAll, lookupA_insertAll]
  have hpair : (pyLower e.2.core.id, e.2) ∈ idxPairs P :=
    List.mem_map_of_mem (fun e => (pyLower e.2.core.id, e.2)) he
  rw [lastVal_of_nodup hnd hpair]

/-- Claim C2 (amended): for every technique or sub-technique record in the
Matrix, the Index contains its lower-cased id; and — provided the retained
records' lower-cased ids are pairwise distinct — the indexed record agrees
with the Matrix record on all nine content fields.  The two records are
nevertheless not identical dicts: the indexed one carries `stix_id` and no
`subtechniques` key (see the counterexample). -/
theorem index_matrix_agreement (objs : List RawObj) :
    ∀ p ∈ (parse_matrix objs).matrix, ∀ t ∈ p.2,
      ((∃ v, lookupA (pyLower t.core.id) (parse_matrix objs).technique_index = some v) ∧
        (((idxPairs (pass1 objs)).map Prod.fst).Nodup →
          ∀ v, lookupA (pyLower t.core.id) (parse_matrix objs).technique_index = some v →
            v.core = t.core)) ∧
      ∀ s ∈ t.subtechniques,
        (∃ v, lookupA (pyLower s.id) (parse_matrix objs).technique_index = some v) ∧
        (((idxPairs (pass1 objs)).map Prod.fst).Nodup →
          ∀ v, lookupA (pyLower s.id) (parse_matrix objs).technique_index = some v →
            v.core = s) := by
  intro p hp t ht
  have hidx : (parse_matrix objs).technique_index = buildIndex (pass1 objs) := rfl
  rcases matrix_mem_assembled hp ht with ⟨e, he, hte⟩
  have hcore : t.core = e.2.core := by subst hte; rfl
  constructor
  · constructor
    · rw [hidx, hcore]
      exact lookup_buildIndex_present (List.mem_append_left _ he)
    · intro hnd v hv
      rw [hidx, hcore] at hv
      rw [lookup_buildIndex_nodup hnd (List.mem_append_left _ he)] at hv
      cases hv
      rw [hcore]
  · intro s hs
    have hs' : s ∈ (assembleTech (pass1 objs).subtechniques e.2).subtechniques := by
      rw [← hte]; exact hs
    rcases mem_assembleTech.mp hs' with ⟨e', he', _, hse⟩
    have hsid : s.id = e'.2.core.id := by rw [← hse]
    constructor
    · rw [hidx, hsid]
      exact lookup_buildIndex_present (List.mem_append_right _ he')
    · intro hnd v hv
      rw [hidx, hsid] at hv
      rw [lookup_buildIndex_nodup hnd (List.mem_append_right _ he')] at hv
      cases hv
      rw [← hse]

/-- Witness for C2 at the scenario bundle's single matrix technique. -/
theorem index_matrix_agreement_inst :
    ((∃ v, lookupA (pyLower (parse_matrix scenBundle).matrix.headI.2.headI.core.id)
        (parse_matrix scenBundle).technique_index = some v) ∧
      (((idxPairs (pass1 scenBundle)).map Prod.fst).Nodup →
        ∀ v, lookupA (pyLower (parse_matrix scenBundle).matrix.headI.2.headI.core.id)
            (parse_matrix scenBundle).technique_index = some v →
          v.core = (parse_matrix scenBundle).matrix.headI.2.headI.core)) ∧
    ∀ s ∈ (parse_matrix scenBundle).matrix.headI.2.headI.subtechniques,
      (∃ v, lookupA (pyLower s.id) (parse_matrix scenBundle).technique_index = some v) ∧
      (((idxPairs (pass1 scenBundle)).map Prod.fst).Nodup →
        ∀ v, lookupA (pyLower s.id) (parse_matrix scenBundle).technique_index = some v →
          v.core = s) :=
  index_matrix_agreement scenBundle (parse_matrix scenBundle).matrix.headI (by decide)
    (parse_matrix scenBundle).matrix.headI.2.headI (by decide)

/-- The bundle of the C2 counterexample: one tactic `x`, one technique
`T1000` (with no sub-techniques). -/
def c2Bundle : List RawObj := [dupTactic, dupTech]

/-- The record the index maps `"t1000"` to. -/
def c2IdxRec : Option TechData :=
  lookupA (pyStr "t1000") (parse_matrix c2Bundle).technique_index

/-- The record the matrix stores for `T1000`. -/
def c2MatRec : TechObj := (parse_matrix c2Bundle).matrix.headI.2.headI

/-- Counterexample to C2 as stated: the index entry for `t1000` and the
matrix record with id `T1000` are **not** identical records — the indexed
dict has a `stix_id` key and no `subtechniques` key, the matrix dict the
reverse — so `Index[lowercase(id)]` does not return the identical record
that appears in the Matrix. -/
theorem index_matrix_identical_cex :
    (c2IdxRec.map fun td => td.core.id) = some (pyStr "T1000") ∧
      c2MatRec.core.id = pyStr "T1000" ∧
      (c2IdxRec.map fun td => jsonHasKey kStixId (encTechData td)) = some true ∧
      jsonHasKey kStixId (encTechObj c2MatRec) = false ∧
      (c2IdxRec.map fun td => jsonHasKey kSubtechniques (encTechData td)) = some false ∧
      jsonHasKey kSubtechniques (encTechObj c2MatRec) = true ∧
      c2IdxRec.map encTechData ≠ some (encTechObj c2MatRec) := by
  refine ⟨by decide, by decide, by decide, by decide, by decide, by decide, ?_⟩
  intro hcontra
  rcases hrec : c2IdxRec with _ | td
  · rw [hrec] at hcontra
    simp at hcontra
  · rw [hrec] at hcontra
    simp only [Option.map_some', Option.some.injEq] at hcontra
    have hkeys := congrArg (jsonHasKey kStixId) hcontra
    have hA : jsonHasKey kStixId (encTechData td) = true := by
      have h0 : (c2IdxRec.map fun td => jsonHasKey kStixId (encTechData td)) = some true := by
        decide
      rw [hrec] at h0
      simpa using h0
    have hB : jsonHasKey kStixId (encTechObj c2MatRec) = false := by decide
    rw [hA, hB] at hkeys
    exact absurd hkeys (by decide)

/-! ## Claim C5 — the startup-rebuilt index vs the normalizer's index -/

/-- The `(key, value)` pairs the startup rebuild inserts for one matrix
technique: the technique itself, then its sub-techniques. -/
def techPairsR (t : TechObj) : List (PyStr × RRec) :=
  (pyLower t.core.id, RRec.rtech t) :: t.subtechniques.map fun s => (pyLower s.id, RRec.rsub s)

/-- All pairs the startup rebuild inserts, in insertion order. -/
def rebuildPairs (m : List (PyStr × List TechObj)) : List (PyStr × RRec) :=
  (m.map fun p => (p.2.map techPairsR).flatten).flatten

theorem insertAll_append {κ V : Type} [DecidableEq κ] (l1 l2 : List (κ × V))
    (acc : List (κ × V)) : insertAll (l1 ++ l2) acc = insertAll l2 (insertAll l1 acc) :=
  List.foldl_append _ _ _ _

theorem insertAll_techPairsR (t : TechObj) (acc : List (PyStr × RRec)) :
    insertAll (techPairsR t) acc =
      t.subtechniques.foldl (fun a s => updAssoc (pyLower s.id) (RRec.rsub s) a)
        (updAssoc (pyLower t.core.id) (RRec.rtech t) acc) := by
  simp [insertAll, techPairsR, List.foldl_map]

theorem rebuildRow_eq (ts : List TechObj) :
    ∀ acc : List (PyStr × RRec),
      ts.foldl
        (fun acc2 t =>
          t.subtechniques.foldl (fun a s => updAssoc (pyLower s.id) (RRec.rsub s) a)
            (updAssoc (pyLower t.core.id) (RRec.rtech t) acc2))
        acc = insertAll (ts.map techPairsR).flatten acc := by
  induction ts with
  | nil => intro acc; rfl
  | cons t ts ih =>
    intro acc
    rw [List.map_cons, List.flatten_cons, insertAll_append, ← ih, insertAll_techPairsR]
    rfl

theorem rebuildIndex_eq_insertAll (m : List (PyStr × List TechObj)) :
    rebuildIndex m = insertAll (rebuildPairs m) [] := by
  suffices h : ∀ acc : List (PyStr × RRec),
      m.foldl
        (fun acc p =>
          p.2.foldl
            (fun acc2 t =>
              t.subtechniques.foldl (fun a s => updAssoc (pyLower s.id) (RRec.rsub s) a)
                (updAssoc (pyLower t.core.id) (RRec.rtech t) acc2))
            acc)
        acc = insertAll (rebuildPairs m) acc from h []
  induction m with
  | nil => intro acc; rfl
  | cons p rest ih =>
    intro acc
    show List.foldl _ (p.2.foldl _ acc) rest = _
    rw [ih]
    unfold rebuildPairs
    rw [List.map_cons, List.flatten_cons, insertAll_append, rebuildRow_eq]

theorem mem_rebuildPairs {m : List (PyStr × List TechObj)} {q : PyStr × RRec}
    (hq : q ∈ rebuildPairs m) :
    ∃ p ∈ m, ∃ t ∈ p.2,
      q = (pyLower t.core.id, RRec.rtech t) ∨
      ∃ s ∈ t.subtechniques, q = (pyLower s.id, RRec.rsub s) := by
  unfold rebuildPairs at hq
  rcases List.mem_flatten.mp hq with ⟨row, hrow, hqrow⟩
  rcases List.mem_map.mp hrow with ⟨p, hp, hprow⟩
  rw [← hprow] at hqrow
  rcases List.mem_flatten.mp hqrow with ⟨tp, htp, hqtp⟩
  rcases List.mem_map.mp htp with ⟨t, ht, htt⟩
  rw [← htt] at hqtp
  rcases List.mem_cons.mp hqtp with h | h
  · exact ⟨p, hp, t, ht, Or.inl h⟩
  · rcases List.mem_map.mp h with ⟨s, hs, hsq⟩
    exact ⟨p, hp, t, ht, Or.inr ⟨s, hs, hsq.symm⟩⟩

theorem rebuildPairs_mem_tech {m : List (PyStr × List TechObj)} {p : PyStr × List TechObj}
    {t : TechObj} (hp : p ∈ m) (ht : t ∈ p.2) :
    (pyLower t.core.id, RRec.rtech t) ∈ rebuildPairs m := by
  unfold rebuildPairs
  refine List.mem_flatten.mpr ⟨(p.2.map techPairsR).flatten,
    List.mem_map_of_mem _ hp, ?_⟩
  refine List.mem_flatten.mpr ⟨techPairsR t, List.mem_map_of_mem _ ht, ?_⟩
  exact List.mem_cons_self _ _

theorem rebuildPairs_mem_sub {m : List (PyStr × List TechObj)} {p : PyStr × List TechObj}
    {t : TechObj} {s : SubRec} (hp : p ∈ m) (ht : t ∈ p.2) (hs : s ∈ t.subtechniques) :
    (pyLower s.id, RRec.rsub s) ∈ rebuildPairs m := by
  unfold rebuildPairs
  refine List.mem_flatten.mpr ⟨(p.2.map techPairsR).flatten,
    List.mem_map_of_mem _ hp, ?_⟩
  refine List.mem_flatten.mpr ⟨techPairsR t, List.mem_map_of_mem _ ht, ?_⟩
  exact List.mem_cons_of_mem _ (List.mem_map_of_mem _ hs)

theorem lookup_rebuild_isSome {m : List (PyStr × List TechObj)} {k : PyStr} {r : RRec}
    (hmem : (k, r) ∈ rebuildPairs m) : ∃ w, lookupA k (rebuildIndex m) = some w := by
  rw [rebuildIndex_eq_insertAll, lookupA_insertAll]
  rcases lastVal_isSome_of_mem hmem with ⟨w, hw⟩
  exact ⟨w, by rw [hw]⟩

theorem lookup_rebuild_mem {m : List (PyStr × List TechObj)} {k : PyStr} {r : RRec}
    (h : lookupA k (rebuildIndex m) = some r) : (k, r) ∈ rebuildPairs m := by
  rw [rebuildIndex_eq_insertAll, lookupA_insertAll] at h
  rcases hl : lastVal k (rebuildPairs m) with _ | v
  · rw [hl] at h
    simp [lookupA] at h
  · rw [hl] at h
    cases h
    exact lastVal_mem hl

/-- Claim C5 (amended): the index rebuilt at startup from a cached matrix is
the restriction of the Normalizer's index to the ids appearing in the
Matrix — every rebuilt entry's key is present in the original index and
(when retained lower-cased ids are pairwise distinct) both map it to the
same nine content fields, and every id appearing in the Matrix has a rebuilt
entry.  The two mappings are **not** equal in general: the original index
additionally holds records that attached to no tactic (see the
counterexample), and its records carry `stix_id` while the rebuilt entries
are the matrix records themselves. -/
theorem rebuilt_index_agreement (objs : List RawObj) :
    (∀ (k : PyStr) (r : RRec),
      lookupA k (rebuildIndex (parse_matrix objs).matrix) = some r →
      (∃ v, lookupA k (parse_matrix objs).technique_index = some v) ∧
      (((idxPairs (pass1 objs)).map Prod.fst).Nodup →
        ∀ v, lookupA k (parse_matrix objs).technique_index = some v →
          v.core = RRec.core r)) ∧
    (∀ p ∈ (parse_matrix objs).matrix, ∀ t ∈ p.2,
      (∃ r, lookupA (pyLower t.core.id) (rebuildIndex (parse_matrix objs).matrix) = some r) ∧
      ∀ s ∈ t.subtechniques,
        ∃ r, lookupA (pyLower s.id) (rebuildIndex (parse_matrix objs).matrix) = some r) := by
  have hidx : (parse_matrix objs).technique_index = buildIndex (pass1 objs) := rfl
  constructor
  · intro k r hk
    rcases mem_rebuildPairs (lookup_rebuild_mem hk) with ⟨p, hp, t, ht, hcase⟩
    rcases matrix_mem_assembled hp ht with ⟨e, he, hte⟩
    have hcore : t.core = e.2.core := by subst hte; rfl
    rcases hcase with hcase | ⟨s, hs, hcase⟩
    · have hk1 : k = pyLower t.core.id := congrArg Prod.fst hcase
      have hr : r = RRec.rtech t := congrArg Prod.snd hcase
      constructor
      · rw [hidx, hk1, hcore]
        exact lookup_buildIndex_present (List.mem_append_left _ he)
      · intro hnd v hv
        rw [hidx, hk1, hcore] at hv
        rw [lookup_buildIndex_nodup hnd (List.mem_append_left _ he)] at hv
        cases hv
        rw [hr]
        exact hcore.symm
    · have hs' : s ∈ (assembleTech (pass1 objs).subtechniques e.2).subtechniques := by
        rw [← hte]; exact hs
      rcases mem_assembleTech.mp hs' with ⟨e', he', _, hse⟩
      have hsid : s.id = e'.2.core.id := by rw [← hse]
      have hk1 : k = pyLower s.id := congrArg Prod.fst hcase
      have hr : r = RRec.rsub s := congrArg Prod.snd hcase
      constructor
      · rw [hidx, hk1, hsid]
        exact lookup_buildIndex_present (List.mem_append_right _ he')
      · intro hnd v hv
        rw [hidx, hk1, hsid] at hv
        rw [lookup_buildIndex_nodup hnd (List.mem_append_right _ he')] at hv
        cases hv
        rw [hr]
        exact hse
  · intro p hp t ht
    constructor
    · exact lookup_rebuild_isSome (rebuildPairs_mem_tech hp ht)
    · intro s hs
      exact lookup_rebuild_isSome (rebuildPairs_mem_sub hp ht hs)

/-- Witness for C5 at the scenario bundle: the rebuilt index resolves
`"t1566"` to the matrix technique record, which the original index also
resolves, with the same content fields. -/
theorem rebuilt_index_agreement_inst :
    (∃ v, lookupA (pyStr "t1566") (parse_matrix scenBundle).technique_index = some v) ∧
      (((idxPairs (pass1 scenBundle)).map Prod.fst).Nodup →
        ∀ v, lookupA (pyStr "t1566") (parse_matrix scenBundle).technique_index = some v →
          v.core = RRec.core (RRec.rtech scenT1566)) :=
  (rebuilt_index_agreement scenBundle).1 (pyStr "t1566") (RRec.rtech scenT1566) (by decide)

/-- The bundle of the C5 counterexample: one tactic `x` and one orphan
sub-technique `T1000.001` whose parent technique is absent. -/
def c5Bundle : List RawObj := [dupTactic, dupSub1]

/-- Counterexample to C5 as stated: the Normalizer's index for `c5Bundle`
contains the orphan sub-technique under `"t1000.001"`, but the matrix has no
technique records at all, so the rebuilt index is empty — the two mappings
have different key sets. -/
theorem rebuilt_index_same_mapping_cex :
    (parse_matrix c5Bundle).technique_index.map Prod.fst = [pyStr "t1000.001"] ∧
      rebuildIndex (parse_matrix c5Bundle).matrix = [] := by
  decide

/-! ## Claim C8 — cache round-trip of the durable subset -/

/-- The durable subset of a dataset: everything except the re-derivable
index (`save_to_cache` strips `technique_index`, lines 296-297). -/
structure CacheData where
  tactics : List (PyStr × TacticData)
  matrix : List (PyStr × List TechObj)
  statistics : Stats
deriving DecidableEq

def encTacticData (td : TacticData) : Json :=
  .jobj [(kName, .jstr td.name), (kDescription, .jstr td.description),
    (kShortname, .jstr td.shortname)]

def encStats (s : Stats) : Json :=
  .jobj [(kTotTactics, .jnat s.total_tactics), (kTotTechniques, .jnat s.total_techniques),
    (kTotSubtechniques, .jnat s.total_subtechniques)]

def encAssoc {V : Type} (f : V → Json) (l : List (PyStr × V)) : Json :=
  .jobj (l.map fun p => (p.1, f p.2))

/-- `save_to_cache` (lines 292-300): the parse-result dict minus
`technique_index`, as the JSON value written to the cache file. -/
def saveCache (D : Dataset) : Json :=
  .jobj [(kTactics, encAssoc encTacticData D.tactics),
    (kMatrix, encAssoc (fun ts => .jarr (ts.map encTechObj)) D.matrix),
    (kStatistics, encStats D.statistics)]

def decodeStr : Json → Option PyStr
  | .jstr s => some s
  | _ => none

def decodeOptStr : Json → Option (Option PyStr)
  | .jnull => some none
  | .jstr s => some (some s)
  | _ => none

def decodeNat : Json → Option Nat
  | .jnat n => some n
  | _ => none

def decodeListWith {α : Type} (f : Json → Option α) : List Json → Option (List α)
  | [] => some []
  | j :: js =>
    match f j, decodeListWith f js with
    | some a, some l => some (a :: l)
    | _, _ => none

def decodeStrList : Json → Option (List PyStr)
  | .jarr xs => decodeListWith decodeStr xs
  | _ => none

def decodeRefOut : Json → Option RefOut
  | .jobj [(_, s), (_, d), (_, u), (_, e)] =>
    match decodeStr s, decodeOptStr d, decodeOptStr u, decodeOptStr e with
    | some sn, some dd, some uu, some ee => some ⟨sn, dd, uu, ee⟩
    | _, _, _, _ => none
  | _ => none

def decodeRefList : Json → Option (List RefOut)
  | .jarr xs => decodeListWith decodeRefOut xs
  | _ => none

def decodeSubRec : Json → Option SubRec
  | .jobj [(_, i), (_, n), (_, d), (_, pl), (_, ta), (_, mu), (_, de), (_, er), (_, kc)] =>
    match decodeStr i, decodeStr n, decodeStr d, decodeStrList pl, decodeStrList ta,
        decodeOptStr mu, decodeStr de, decodeRefList er, decodeStrList kc with
    | some a, some b, some c, some p4, some p5, some p6, some p7, some p8, some p9 =>
      some ⟨a, b, c, p4, p5, p6, p7, p8, p9⟩
    | _, _, _, _, _, _, _, _, _ => none
  | _ => none

def decodeSubList : Json → Option (List SubRec)
  | .jarr xs => decodeListWith decodeSubRec xs
  | _ => none

def decodeTechObj : Json → Option TechObj
  | .jobj [a, b, c, d, e, f, g, h, i, (_, su)] =>
    match decodeSubRec (.jobj [a, b, c, d, e, f, g, h, i]), decodeSubList su with
    | some core, some subs => some ⟨core, subs⟩
    | _, _ => none
  | _ => none

def decodeTechList : Json → Option (List TechObj)
  | .jarr xs => decodeListWith decodeTechObj xs
  | _ => none

def decodeTacticData : Json → Option TacticData
  | .jobj [(_, n), (_, d), (_, s)] =>
    match decodeStr n, decodeStr d, decodeStr s with
    | some a, some b, some c => some ⟨a, b, c⟩
    | _, _, _ => none
  | _ => none

def decodeStats : Json → Option Stats
  | .jobj [(_, a), (_, b), (_, c)] =>
    match decodeNat a, decodeNat b, decodeNat c with
    | some x, some y, some z => some ⟨x, y, z⟩
    | _, _, _ => none
  | _ => none

def decodePairsWith {V : Type} (f : Json → Option V) :
    List (PyStr × Json) → Option (List (PyStr × V))
  | [] => some []
  | (k, j) :: rest =>
    match f j, decodePairsWith f rest with
    | some v, some l => some ((k, v) :: l)
    | _, _ => none

def decodeAssoc {V : Type} (f : Json → Option V) : Json → Option (List (PyStr × V))
  | .jobj fs => decodePairsWith f fs
  | _ => none

/-- `load_from_cache` (lines 314-324): structural inverse of the writer —
`json.load` itself imposes no schema, so the decoder accepts exactly the
shape the writer produces. -/
def loadCache : Json → Option CacheData
  | .jobj [(_, tj), (_, mj), (_, sj)] =>
    match decodeAssoc decodeTacticData tj,
        decodeAssoc decodeTechList mj, decodeStats sj with
    | some ta, some ma, some st => some ⟨ta, ma, st⟩
    | _, _, _ => none
  | _ => none

theorem decodeListWith_map {α : Type} (f : Json → Option α) (enc : α → Json)
    (h : ∀ x, f (enc x) = some x) :
    ∀ xs : List α, decodeListWith f (xs.map enc) = some xs := by
  intro xs
  induction xs with
  | nil => rfl
  | cons x xs ih => simp [decodeListWith, h, ih]

theorem decodePairsWith_map {V : Type} (f : Json → Option V) (enc : V → Json)
    (h : ∀ v, f (enc v) = some v) :
    ∀ l : List (PyStr × V), decodePairsWith f (l.map fun p => (p.1, enc p.2)) = some l := by
  intro l
  induction l with
  | nil => rfl
  | cons p rest ih => simp [decodePairsWith, h, ih]

theorem rt_optStr (o : Option PyStr) : decodeOptStr (encOptStr o) = some o := by
  cases o <;> rfl

theorem rt_strList (l : List PyStr) : decodeStrList (encStrList l) = some l := by
  unfold encStrList decodeStrList
  exact decodeListWith_map decodeStr Json.jstr (fun _ => rfl) l

theorem rt_refOut (r : RefOut) : decodeRefOut (encRefOut r) = some r := by
  unfold encRefOut decodeRefOut
  simp [rt_optStr, decodeStr]

theorem rt_subRec (c : SubRec) : decodeSubRec (encSubRec c) = some c := by
  unfold encSubRec encSubFields decodeSubRec
  simp [decodeStr, rt_optStr, rt_strList, decodeRefList,
    decodeListWith_map decodeRefOut encRefOut rt_refOut]

theorem rt_techObj (t : TechObj) : decodeTechObj (encTechObj t) = some t := by
  have hcore : decodeSubRec (Json.jobj (encSubFields t.core)) = some t.core := rt_subRec t.core
  unfold encTechObj encSubFields decodeTechObj
  unfold encSubFields at hcore
  simp [hcore, decodeSubList, decodeListWith_map decodeSubRec encSubRec rt_subRec]

theorem rt_tacticData (td : TacticData) : decodeTacticData (encTacticData td) = some td := by
  unfold encTacticData decodeTacticData
  simp [decodeStr]

theorem rt_stats (s : Stats) : decodeStats (encStats s) = some s := by
  unfold encStats decodeStats
  simp [decodeNat]

/-- Claim C8: saving a normalizer-produced dataset to the cache and loading
it back returns exactly the durable subset — every field of the dataset
except the re-derivable `technique_index` — unchanged. -/
theorem cache_roundtrip_durable (D : Dataset) :
    loadCache (saveCache D) = some ⟨D.tactics, D.matrix, D.statistics⟩ := by
  unfold saveCache loadCache
  have h1 : decodeAssoc decodeTacticData (encAssoc encTacticData D.tactics)
      = some D.tactics := by
    unfold encAssoc decodeAssoc
    exact decodePairsWith_map decodeTacticData encTacticData rt_tacticData D.tactics
  have h2 : decodeAssoc decodeTechList
      (encAssoc (fun ts => Json.jarr (ts.map encTechObj)) D.matrix) = some D.matrix := by
    unfold encAssoc decodeAssoc
    refine decodePairsWith_map decodeTechList (fun ts => Json.jarr (ts.map encTechObj))
      ?_ D.matrix
    intro ts
    unfold decodeTechList
    exact decodeListWith_map decodeTechObj encTechObj rt_techObj ts
  simp [h1, h2, rt_stats]
